import Mathlib

/-!
# Binding resolver of the `hero` package (`hero/binding.go`)

A shallow embedding of the dependency-injection binding resolver:
`matchDependency`, `getBindingsFor`, `getBindingsForFunc`,
`getBindingsForStruct`, `paramBinding`, `paramDependencyHandler` and
`payloadBinding`.

Conventions of the embedding.

* `reflect.Type` is the inductive `RType`; a nil `reflect.Type` is `none`.
* The dependency pool `deps []*Dependency` is a list of records, one per pool
  position; the in-place mutation `d.Handle = ...` of `deps[j]` is
  `List.set` at position `j`.  Pool entries are distinct, non-nil pointers
  (as produced by registration), so a pointer into the pool is its position.
* `*Dependency` inside a `Binding` is a `DepPtr`: either a pool position
  (whose record is read from the pool, so later mutations are visible through
  the binding) or a freshly allocated record.
* Closures are first-order terms of `Handler`; `Handler.run` calls one on a
  request context `Ctx`.
* `Binding.Equal` takes the pool its bindings point into; the type of an
  `Input` is always present.
* Go `int` is `Int`, additions are reduced with `wrapInt` (64 bit).
* A panic is `Except.error`.
-/

namespace Hero

/-- Kinds (`reflect.Kind`) of the type descriptors of the model. -/
inductive Kind where
  | Bool
  | Int
  | String
  | Float64
  | Struct
  | Interface
  | Ptr
  deriving DecidableEq, Repr

/-- Type descriptors (`reflect.Type`). -/
inductive RType where
  | bool
  | int
  | string
  | float64
  | struct (name : String)
  | iface (name : String)
  | ptr (elem : RType)
  deriving DecidableEq, Repr

/-- The kind of a type descriptor: `typ.Kind()`. -/
def RType.Kind : RType → Kind
  | .bool => .Bool
  | .int => .Int
  | .string => .String
  | .float64 => .Float64
  | .struct _ => .Struct
  | .iface _ => .Interface
  | .ptr _ => .Ptr

/-- Modelled from the spec: `indirectType` (reflect.go) is not part of the
source at hand; the spec calls its result the pointer-stripped type. -/
def indirectType : RType → RType
  | .ptr elem => elem
  | t => t

/-- Dynamic values (`interface{}` / `reflect.Value`). -/
inductive Value where
  | bool (b : Bool)
  | int (n : Int)
  | str (s : String)
  | nilPtr (elem : RType)
  | obj (typ : RType) (repr : String)
  deriving DecidableEq, Repr

/-- The dynamic type of a value. -/
def Value.typeOf : Value → RType
  | .bool _ => .bool
  | .int _ => .int
  | .str _ => .string
  | .nilPtr elem => .ptr elem
  | .obj typ _ => typ

/-- Whether a value is the zero value of its type (`obj` stands for a populated
composite value). -/
def Value.isZero : Value → Bool
  | .bool b => !b
  | .int n => n == 0
  | .str s => s == ""
  | .nilPtr _ => true
  | .obj _ _ => false

/-- Dependency handlers (`DependencyHandler`), as first-order terms.
`param p` is the closure returned by `paramDependencyHandler(p)`;
`paramOr p prev` is the closure assigned to `d.Handle` at line 161, which
captured `paramHandler = paramDependencyHandler(p)` and `prevHandler = prev`;
`payload` is the closure of `payloadBinding`. -/
inductive Handler where
  | nil
  | user (id : Nat)
  | static (v : Value)
  | param (paramIndex : Int)
  | paramOr (paramIndex : Int) (prev : Handler)
  | payload
  deriving DecidableEq, Repr

/-- The record `Dependency` (the diagnostic field `Source` is left out). -/
structure Dependency where
  Handle : Handler
  OriginalValue : Option Value
  DestType : Option RType
  Explicit : Bool
  Static : Bool
  deriving DecidableEq, Repr

/-- A `*Dependency` held by a binding. -/
inductive DepPtr where
  | pool (j : Nat)
  | fresh (d : Dependency)
  deriving DecidableEq, Repr

/-- The record `Input` (the cache `selfValue` is left out; the field `Type` is
spelled `Typ`, `Type` being reserved); a nil
`StructFieldIndex` is `none`. -/
structure Input where
  Index : Int
  StructFieldIndex : Option (List Int)
  Typ : RType
  deriving DecidableEq, Repr

/-- The record `Binding`; a nil pointer is `none`. -/
structure Binding where
  Dependency : Option DepPtr
  Input : Option Input
  deriving DecidableEq, Repr

/-- A struct field as reflection describes it (`reflect.StructField`): its name, its
index path from the struct root and its type (`Type`, spelled `Typ`). -/
structure StructField where
  Name : String
  Index : List Int
  Typ : RType
  deriving DecidableEq, Repr

/-- The collaborators of the binder that live outside `binding.go`:
the table `context.ParamResolvers` (as its key set), `equalTypes`, and the
library routine `sort.Slice` (on field lists, given the `less` relation). -/
structure Env where
  ParamResolvers : RType → Bool
  equalTypes : RType → RType → Bool
  sortSlice : (StructField → StructField → Bool) → List StructField → List StructField

/-- Reduction of an integer to the range of a 64 bit Go `int`. -/
def wrapInt (x : Int) : Int := (x + 2 ^ 63) % 2 ^ 64 - 2 ^ 63

/-- Whether an integer is a value of a 64 bit Go `int`. -/
def isInt64 (x : Int) : Prop := -(2 ^ 63) ≤ x ∧ x < 2 ^ 63

instance (x : Int) : Decidable (isInt64 x) :=
  inferInstanceAs (Decidable (-(2 ^ 63) ≤ x ∧ x < 2 ^ 63))

/-- The constructor `newInput(typ, index, structFieldIndex)`. -/
def newInput (typ : RType) (index : Int) (structFieldIndex : Option (List Int)) : Input :=
  { Index := index, StructFieldIndex := structFieldIndex, Typ := typ }

/-- The function `matchDependency(dep, in)`. -/
def matchDependency (E : Env) (dep : Dependency) (inp : RType) : Bool :=
  if dep.Explicit then
    dep.DestType == some inp
  else
    match dep.DestType with
    | none => true
    | some t => E.equalTypes t inp

/-- The function `paramBinding(index, paramIndex, typ)`. -/
def paramBinding (index : Int) (paramIndex : Int) (typ : RType) : Binding :=
  { Dependency := some (.fresh
      { Handle := .param paramIndex, OriginalValue := none, DestType := some typ,
        Explicit := false, Static := false })
    Input := some (newInput typ index none) }

/-- The function `payloadBinding(index, typ)`. -/
def payloadBinding (index : Int) (typ : RType) : Binding :=
  { Dependency := some (.fresh
      { Handle := .payload, OriginalValue := none, DestType := none,
        Explicit := false, Static := false })
    Input := some (newInput typ index none) }

/-- The local state of `getBindingsFor` while it walks the inputs, together
with the pool it mutates. -/
structure State where
  bindings : List Binding
  bindedInput : List Nat
  lastParamIndex : Int
  deps : List Dependency
  deriving DecidableEq, Repr

/-- The inner loop `for j := len(deps) - 1; j >= 0; j--` up to its `break`:
`scanDeps E inp deps binded n` scans the positions `n - 1, ..., 0` and
returns the first position that is not in `bindedInput` and matches. -/
def scanDeps (E : Env) (inp : RType) (deps : List Dependency) (bindedInput : List Nat) :
    Nat → Option Nat
  | 0 => none
  | j + 1 =>
    match deps[j]? with
    | none => scanDeps E inp deps bindedInput j
    | some d =>
      if j ∈ bindedInput then scanDeps E inp deps bindedInput j
      else if matchDependency E d inp then some j
      else scanDeps E inp deps bindedInput j

/-- The wrap of lines 159-170: the handler of `d` is replaced by the
path-parameter handler at slot `paramIndex` falling back on the previous
handler, `Static` is reset and `OriginalValue` cleared. -/
def wrapParam (paramIndex : Int) (d : Dependency) : Dependency :=
  { d with Handle := .paramOr paramIndex d.Handle, Static := false, OriginalValue := none }

/-- The value of `canBePathParameter` (lines 135-136) for an input of type `inp`:
the type is a key of `context.ParamResolvers` and `paramStartIndex` is not `-1`. -/
def canBePathParameter (E : Env) (paramStartIndex : Int) (inp : RType) : Bool :=
  E.ParamResolvers inp && (paramStartIndex != -1)

/-- The body of the loop `for i, in := range inputs` of `getBindingsFor`. -/
def bindInput (E : Env) (paramStartIndex : Int) (i : Nat) (inp : RType) (s : State) : State :=
  let canBePathParameter := canBePathParameter E paramStartIndex inp
  match scanDeps E inp s.deps s.bindedInput s.deps.length with
  | some j =>
    match s.deps[j]? with
    | none => s
    | some d =>
      { bindings := s.bindings ++
          [{ Dependency := some (.pool j), Input := some (newInput inp i none) }]
        bindedInput := if !d.Explicit then j :: s.bindedInput else s.bindedInput
        lastParamIndex :=
          if canBePathParameter then wrapInt (s.lastParamIndex + 1) else s.lastParamIndex
        deps :=
          if canBePathParameter then s.deps.set j (wrapParam s.lastParamIndex d) else s.deps }
  | none =>
    if canBePathParameter then
      { s with
        bindings := s.bindings ++ [paramBinding i s.lastParamIndex inp]
        lastParamIndex := wrapInt (s.lastParamIndex + 1) }
    else if (indirectType inp).Kind == Kind.Struct then
      { s with bindings := s.bindings ++ [payloadBinding i inp] }
    else s

/-- The loop `for i, in := range inputs`, started at index `i`. -/
def loopInputs (E : Env) (paramStartIndex : Int) : Nat → List RType → State → State
  | _, [], s => s
  | i, inp :: rest, s => loopInputs E paramStartIndex (i + 1) rest (bindInput E paramStartIndex i inp s)

/-- The state of `getBindingsFor` before its loop. -/
def initState (deps : List Dependency) (paramStartIndex : Int) : State :=
  { bindings := [], bindedInput := [], lastParamIndex := paramStartIndex, deps := deps }

/-- The state of `getBindingsFor` when it returns. -/
def runBindingsFor (E : Env) (inputs : List RType) (deps : List Dependency)
    (paramStartIndex : Int) : State :=
  loopInputs E paramStartIndex 0 inputs (initState deps paramStartIndex)

/-- The function `getBindingsFor(inputs, deps, paramStartIndex)`: the returned bindings
and the pool as the call leaves it. -/
def getBindingsFor (E : Env) (inputs : List RType) (deps : List Dependency)
    (paramStartIndex : Int) : List Binding × List Dependency :=
  let s := runBindingsFor E inputs deps paramStartIndex
  (s.bindings, s.deps)

/-- The type of the value handed to `getBindingsForFunc`: a func type with its
parameter types, or another type. -/
inductive FnType where
  | func (ins : List RType)
  | other (t : RType)
  deriving DecidableEq, Repr

/-- The function `getBindingsForFunc(fn, dependencies, paramStartIndex)`,
on `fnTyp = fn.Type()`. -/
def getBindingsForFunc (E : Env) (fnTyp : FnType) (dependencies : List Dependency)
    (paramStartIndex : Int) : Except String (List Binding × List Dependency) :=
  match fnTyp with
  | .other _ => .error "bindings: unresolved: not a func type"
  | .func inputs =>
    let n := inputs.length
    let r := getBindingsFor E inputs dependencies paramStartIndex
    if n > r.1.length then
      .error "expected bindings (input parameters) but got fewer"
    else .ok r

/-- The state of `getBindingsFor` after its first `k` inputs were processed
(that is, just before input `k`). -/
def stateAt (E : Env) (inputs : List RType) (deps : List Dependency) (paramStartIndex : Int)
    (k : Nat) : State :=
  loopInputs E paramStartIndex 0 (inputs.take k) (initState deps paramStartIndex)

/-- Pool position `j` is eligible for an input of type `inp` in state `s`: it was not
consumed by an earlier input and its entry matches the type. -/
def eligible (E : Env) (s : State) (inp : RType) (j : Nat) : Prop :=
  j ∉ s.bindedInput ∧ ∃ d, s.deps[j]? = some d ∧ matchDependency E d inp = true

/-- The bindings appended by one round of the loop of `getBindingsFor`. -/
def emitted (E : Env) (paramStartIndex : Int) (i : Nat) (inp : RType) (s : State) :
    List Binding :=
  (bindInput E paramStartIndex i inp s).bindings.drop s.bindings.length

/-- The bindings that `getBindingsFor` appends while it handles input `i`
(empty when `i` is not an index of `inputs`). -/
def emittedAt (E : Env) (inputs : List RType) (deps : List Dependency) (paramStartIndex : Int)
    (i : Nat) : List Binding :=
  match inputs[i]? with
  | none => []
  | some inp => emitted E paramStartIndex i inp (stateAt E inputs deps paramStartIndex i)

/-- The part of a pool entry that decides matching. -/
def Dependency.sig (d : Dependency) : Bool × Option RType := (d.Explicit, d.DestType)

/-- The bindings of `bs` whose `Input.Index` is `i`. -/
def bindingsOfInput (bs : List Binding) (i : Nat) : List Binding :=
  bs.filter (fun b => match b.Input with
    | some inp => inp.Index == (i : Int)
    | none => false)

/-- The number of bindings of `bs` whose `Dependency` is the pool entry at position `j`. -/
def poolUses (bs : List Binding) (j : Nat) : Nat :=
  bs.countP (fun b => b.Dependency == some (DepPtr.pool j))

/-- A concrete instance of the collaborators, used to evaluate the binder on examples:
the basic types are path-parameter types (as in `context.ParamResolvers`),
`equalTypes` is identity of types and `sort.Slice` is an insertion sort. -/
def sampleEnv : Env :=
  { ParamResolvers := fun t => t == .int || t == .string || t == .bool || t == .float64
    equalTypes := fun a b => a == b
    sortSlice := fun less fields => fields.insertionSort (fun a b => less a b = true) }

/-- A sample pool entry: the implicit dependency with user handler `id`, registered for
type `t`. -/
def implicitDep (id : Nat) (t : RType) : Dependency :=
  { Handle := .user id, OriginalValue := none, DestType := some t, Explicit := false,
    Static := false }

/-- A sample pool entry: the explicit dependency with user handler `id`, pinned to
type `t`. -/
def explicitDep (id : Nat) (t : RType) : Dependency :=
  { Handle := .user id, OriginalValue := none, DestType := some t, Explicit := true,
    Static := false }

/-- A sample pool: two implicit `Logger` providers, registered one after the other. -/
def twoLoggers : List Dependency :=
  [implicitDep 0 (.iface "Logger"), implicitDep 1 (.iface "Logger")]

/-- A sample parameter list: `f(id int, log Logger, name string)`. -/
def sampleInputs : List RType := [.int, .iface "Logger", .string]

/-- A sample pool: an implicit `Logger` provider, then an explicit `string` provider. -/
def samplePool : List Dependency := [implicitDep 0 (.iface "Logger"), explicitDep 1 .string]

/-- Pool position `j` was matched to a path-parameter-capable input: some binding of `bs`
holds the pool entry at `j` for an input whose type takes the path-parameter route. -/
def matchedToPathInput (E : Env) (paramStartIndex : Int) (bs : List Binding) (j : Nat) : Prop :=
  ∃ b ∈ bs, b.Dependency = some (DepPtr.pool j) ∧
    ∃ inp, b.Input = some inp ∧ canBePathParameter E paramStartIndex inp.Typ = true

/-- What reflection yields of the value `v` handed to `getBindingsForStruct`:
its type `v.Type()`, the result of `lookupNonZeroFieldValues(elem)`, the result of
`lookupFields(elem, true, true, nil)`, and the field values
`elem.FieldByIndex(index).Interface()`. -/
structure StructValue where
  typ : RType
  nonZero : List StructField
  fields : List StructField
  fieldByIndex : List Int → Value

/-- Modelled from the spec: `NewDependency` (dependency.go) is not part of the source at
hand; per the spec a pre-populated field yields a static dependency built directly from
the field's current value. -/
def NewDependency (v : Value) : Dependency :=
  { Handle := .static v, OriginalValue := some v, DestType := some v.typeOf,
    Explicit := false, Static := true }

/-- The binding built at lines 235-238 for the non-zero field `f`; `f.Index[0]` panics on
an empty index path. -/
def nonZeroBinding (v : StructValue) (f : StructField) : Except String Binding :=
  match f.Index with
  | [] => .error "index out of range"
  | i0 :: _ =>
    .ok { Dependency := some (.fresh (NewDependency (v.fieldByIndex f.Index)))
          Input := some (newInput f.Typ i0 (some f.Index)) }

/-- The loop `for _, f := range nonZero` of `getBindingsForStruct`. -/
def nonZeroBindings (v : StructValue) : List StructField → Except String (List Binding)
  | [] => .ok []
  | f :: rest =>
    match nonZeroBinding v f with
    | .error e => .error e
    | .ok b =>
      match nonZeroBindings v rest with
      | .error e => .error e
      | .ok bs => .ok (b :: bs)

/-- The fields after lines 241-248: sorted with `sort.Slice` by the sorter on their types
when there are at least two fields and a sorter is given. -/
def sortedFields (E : Env) (v : StructValue) (sorter : Option (RType → RType → Bool)) :
    List StructField :=
  match sorter with
  | some less =>
    if v.fields.length > 1 then E.sortSlice (fun a b => less a.Typ b.Typ) v.fields
    else v.fields
  | none => v.fields

/-- The length of a possibly nil slice. -/
def sliceLen (s : Option (List Int)) : Nat :=
  match s with
  | none => 0
  | some l => l.length

/-- One round of the loop `for _, binding := range bindings` (lines 264-269): a binding
without field path gets the index path of `fields[binding.Input.Index]`. -/
def backFillOne (fields : List StructField) (b : Binding) : Except String Binding :=
  match b.Input with
  | none => .error "nil pointer dereference"
  | some inp =>
    if sliceLen inp.StructFieldIndex == 0 then
      if inp.Index < 0 then .error "index out of range"
      else
        match fields[inp.Index.toNat]? with
        | none => .error "index out of range"
        | some f => .ok { b with Input := some { inp with StructFieldIndex := some f.Index } }
    else .ok b

/-- The loop `for _, binding := range bindings` (lines 264-274). -/
def backFill (fields : List StructField) : List Binding → Except String (List Binding)
  | [] => .ok []
  | b :: rest =>
    match backFillOne fields b with
    | .error e => .error e
    | .ok b2 =>
      match backFill fields rest with
      | .error e => .error e
      | .ok bs => .ok (b2 :: bs)

/-- The function `getBindingsForStruct(v, dependencies, paramStartIndex, sorter)`: the
returned bindings and the pool as the call leaves it. -/
def getBindingsForStruct (E : Env) (v : StructValue) (dependencies : List Dependency)
    (paramStartIndex : Int) (sorter : Option (RType → RType → Bool)) :
    Except String (List Binding × List Dependency) :=
  if (indirectType v.typ).Kind != Kind.Struct then
    .error "bindings: unresolved: no struct type"
  else
    match nonZeroBindings v v.nonZero with
    | .error e => .error e
    | .ok bindings =>
      let fields := sortedFields E v sorter
      let inputs := fields.map (fun f => f.Typ)
      let r := getBindingsFor E inputs dependencies paramStartIndex
      if v.nonZero.length ≥ r.1.length then .ok (bindings, r.2)
      else
        match backFill fields (bindings ++ r.1) with
        | .error e => .error e
        | .ok bs => .ok (bs, r.2)

/-- A field of a struct value without embedded structs: name, type, current value. -/
structure FieldValue where
  Name : String
  Typ : RType
  value : Value
  deriving DecidableEq, Repr

/-- Whether a field name is exported (starts with an upper-case letter). -/
def isExported (name : String) : Bool := name.front.isUpper

/-- The fields of a flat struct with their positions. -/
def indexed (fs : List FieldValue) : List (Nat × FieldValue) :=
  (List.range fs.length).zip fs

/-- Modelled from the spec: field discovery (`lookupNonZeroFieldValues` and `lookupFields`
of reflect.go) is not part of the source at hand.  For a struct without embedded
structs, per section 4.4 of the spec: the pre-populated fields are the fields whose
current value is non-zero, and the remaining eligible fields are the exported fields
that are not pre-populated (zero-valued); field `k` has the index path `[k]`. -/
def reflectStruct (name : String) (fs : List FieldValue) : StructValue :=
  { typ := .struct name
    nonZero := ((indexed fs).filter (fun kf => !kf.2.value.isZero)).map
      (fun kf => { Name := kf.2.Name, Index := [(kf.1 : Int)], Typ := kf.2.Typ })
    fields := ((indexed fs).filter (fun kf => kf.2.value.isZero && isExported kf.2.Name)).map
      (fun kf => { Name := kf.2.Name, Index := [(kf.1 : Int)], Typ := kf.2.Typ })
    fieldByIndex := fun idx =>
      match idx with
      | [k] => ((fs[k.toNat]?).map (fun f => f.value)).getD (.nilPtr (.struct name))
      | _ => .nilPtr (.struct name) }

/-- The struct value `{Name: "x", Age: 0}` of type `struct {Name string; Age int}`. -/
def nameAge : StructValue :=
  reflectStruct "T" [{ Name := "Name", Typ := .string, value := .str "x" },
    { Name := "Age", Typ := .int, value := .int 0 }]

/-- The struct value `{Name: "x", Age: 7}` of type `struct {Name string; Age int}`. -/
def nameAgeSet : StructValue :=
  reflectStruct "T" [{ Name := "Name", Typ := .string, value := .str "x" },
    { Name := "Age", Typ := .int, value := .int 7 }]

/-- The pre-populated binding of the non-zero field `f` of `v`: a dependency built by
`NewDependency` from the field's current value, and the input with `Type` the field
type, `Index` the first element of the field's index path and `StructFieldIndex` the
index path. -/
def prePopulated (v : StructValue) (f : StructField) : Binding :=
  { Dependency := some (.fresh (NewDependency (v.fieldByIndex f.Index)))
    Input := some { Index := f.Index.headD 0, StructFieldIndex := some f.Index, Typ := f.Typ } }

/-- The struct value `{Name: "x", Age: 0}` read with a field discovery that returns every
exported field as remaining field, whether zero-valued or not. -/
def nameAgeAllFields : StructValue :=
  { nameAge with
    fields := [{ Name := "Name", Index := [0], Typ := .string },
      { Name := "Age", Index := [1], Typ := .int }] }

/-- The `String()` of a type descriptor. -/
def RType.String : RType → String
  | .bool => "bool"
  | .int => "int"
  | .string => "string"
  | .float64 => "float64"
  | .struct name => name
  | .iface name => name
  | .ptr elem => "*" ++ RType.String elem

/-- The rendering `fmt.Sprintf("%v", v)` of a value. -/
def Value.format : Value → String
  | .bool b => if b then "true" else "false"
  | .int n => toString n
  | .str s => s
  | .nilPtr _ => "<nil>"
  | .obj _ repr => repr

/-- The rendering `fmt.Sprintf("%v", x)` of an `interface{}`, nil included. -/
def sprintV : Option Value → String
  | none => "<nil>"
  | some v => v.format

/-- The library predicate `reflect.DeepEqual` on two `[]int`: both nil, or both non-nil
with the same elements (a nil slice and an empty non-nil slice are not deeply equal). -/
def deepEqual : Option (List Int) → Option (List Int) → Bool
  | none, none => true
  | some a, some b => a == b
  | _, _ => false

/-- The record a `*Dependency` points to, read in the pool `pool`. -/
def DepPtr.deref (pool : List Dependency) : DepPtr → Option Dependency
  | .fresh d => some d
  | .pool j => pool[j]?

/-- The record `b.Dependency` points to; `none` for a nil pointer. -/
def Binding.dep (pool : List Hero.Dependency) (b : Binding) : Option Hero.Dependency :=
  match b.Dependency with
  | none => none
  | some ptr => ptr.deref pool

/-- The comparison of the two inputs at lines 81-99 of `Equal`. -/
def equalInputs (bi oi : Option Input) : Bool :=
  if bi.isSome != oi.isSome then false
  else
    match bi, oi with
    | some i1, some i2 =>
      if i1.Index != i2.Index then false
      else if i1.Typ.String != i2.Typ.String then false
      else if !deepEqual i1.StructFieldIndex i2.StructFieldIndex then false
      else true
    | _, _ => true

/-- The method `(b *Binding) Equal(other *Binding)`, with the pool the bindings point
into; reading a field through a nil `Dependency` panics. -/
def Binding.Equal (pool : List Hero.Dependency) (b other : Option Binding) :
    Except String Bool :=
  match b with
  | none => .ok other.isNone
  | some b =>
    match other with
    | none => .ok false
    | some o =>
      if (b.dep pool).isSome != (o.dep pool).isSome then .ok false
      else
        match b.dep pool, o.dep pool with
        | some d1, some d2 =>
          if sprintV d1.OriginalValue != sprintV d2.OriginalValue then .ok false
          else if d1.DestType.isSome != d2.DestType.isSome then .ok false
          else
            match d1.DestType, d2.DestType with
            | some t1, some t2 =>
              if t1.String != t2.String then .ok false
              else .ok (equalInputs b.Input o.Input)
            | none, _ => .ok (equalInputs b.Input o.Input)
            | some _, none => .error "invalid memory address or nil pointer dereference"
        | _, _ => .error "invalid memory address or nil pointer dereference"

/-- The sequence of elements of a slice, nil or not. -/
def sliceElems : Option (List Int) → List Int
  | none => []
  | some l => l

/-- A sample binding: the path-parameter binding of input 0 (`int`, slot 0), whose
`StructFieldIndex` is nil. -/
def nilPathBinding : Binding := paramBinding 0 0 .int

/-- A sample binding: the same binding with an empty, non-nil `StructFieldIndex`. -/
def emptyPathBinding : Binding :=
  { paramBinding 0 0 .int with Input := some (newInput .int 0 (some [])) }

/-- A sample binding: a non-nil binding whose `Dependency` is nil. -/
def noDepBinding : Binding := { Dependency := none, Input := some (newInput .int 0 none) }

/-- Errors returned by handlers: the distinguished `ErrSeeOther`, or any other error. -/
inductive GoError where
  | ErrSeeOther
  | other (msg : String)
  deriving DecidableEq, Repr

/-- A `reflect.Value` returned by a handler: the invalid `emptyValue`, a value, or the
pointer made by `reflect.New` together with the value it points to. -/
inductive RValue where
  | emptyValue
  | val (v : Value)
  | ptrTo (v : Value)
  deriving DecidableEq, Repr

/-- The type of a `reflect.Value`, none for the invalid value. -/
def RValue.typeOf : RValue → Option RType
  | .emptyValue => none
  | .val v => some v.typeOf
  | .ptrTo v => some (.ptr v.typeOf)

/-- The request context (`context.Context`) as the handlers read it: the raw values of the
path-parameter store (`ctx.Params().Store[i].ValueRaw`, so `ctx.Params().Len()` is their
number), the requested content type, and the body decoders; a decoder is given the type
of the freshly allocated zero value it decodes into and yields the value it leaves
there together with its error. -/
structure Ctx where
  Params : List Value
  ContentTypeRequested : String
  ReadXML : RType → Value × Option GoError
  ReadYAML : RType → Value × Option GoError
  ReadQuery : RType → Value × Option GoError
  ReadForm : RType → Value × Option GoError
  ReadJSON : RType → Value × Option GoError

/-- What the handlers use of the code outside `binding.go`: the content-type constants of
the `context` package and the handlers registered by the caller (by identifier). -/
structure Runtime where
  ContentXMLHeaderValue : String
  ContentYAMLHeaderValue : String
  ContentFormHeaderValue : String
  ContentFormMultipartHeaderValue : String
  userHandler : Nat → Ctx → Input → Except String (RValue × Option GoError)

/-- The closure returned by `paramDependencyHandler(paramIndex)`, applied to a context
(it does not read its `input`); indexing the store out of range panics. -/
def paramDependencyHandler (paramIndex : Int) (ctx : Ctx) :
    Except String (RValue × Option GoError) :=
  if (ctx.Params.length : Int) ≤ paramIndex then .ok (.emptyValue, some .ErrSeeOther)
  else if paramIndex < 0 then .error "index out of range"
  else
    match ctx.Params[paramIndex.toNat]? with
    | none => .error "index out of range"
    | some v => .ok (.val v, none)

/-- The decoder call selected by the `switch` of lines 311-323, on the target type. -/
def decodeBody (R : Runtime) (ctx : Ctx) (elem : RType) : Value × Option GoError :=
  if ctx.ContentTypeRequested == R.ContentXMLHeaderValue then ctx.ReadXML elem
  else if ctx.ContentTypeRequested == R.ContentYAMLHeaderValue then ctx.ReadYAML elem
  else if ctx.ContentTypeRequested == R.ContentFormHeaderValue then ctx.ReadQuery elem
  else if ctx.ContentTypeRequested == R.ContentFormMultipartHeaderValue then ctx.ReadForm elem
  else ctx.ReadJSON elem

/-- The closure `Handle` of `payloadBinding` (lines 305-334). -/
def payloadHandle (R : Runtime) (ctx : Ctx) (input : Input) : RValue × Option GoError :=
  let wasPtr := input.Typ.Kind == Kind.Ptr
  let decoded := decodeBody R ctx (indirectType input.Typ)
  (if !wasPtr then .val decoded.1 else .ptrTo decoded.1, decoded.2)

/-- Calling a handler.  `paramOr p prev` is the closure of lines 161-168: it calls the
path-parameter handler and, when that returns an error, the previous handler. -/
def Handler.run (R : Runtime) : Handler → Ctx → Input → Except String (RValue × Option GoError)
  | .nil, _, _ => .error "invalid memory address or nil pointer dereference"
  | .user id, ctx, input => R.userHandler id ctx input
  | .static v, _, _ => .ok (.val v, none)
  | .param paramIndex, ctx, _ => paramDependencyHandler paramIndex ctx
  | .paramOr paramIndex prev, ctx, input =>
    match paramDependencyHandler paramIndex ctx with
    | .error e => .error e
    | .ok (v, err) =>
      if err.isSome then Handler.run R prev ctx input
      else .ok (v, err)
  | .payload, ctx, input => .ok (payloadHandle R ctx input)

/-- A sample runtime: the content-type constants of the `context` package and caller
handlers that return their identifier. -/
def sampleRuntime : Runtime :=
  { ContentXMLHeaderValue := "text/xml"
    ContentYAMLHeaderValue := "application/x-yaml"
    ContentFormHeaderValue := "application/x-www-form-urlencoded"
    ContentFormMultipartHeaderValue := "multipart/form-data"
    userHandler := fun id _ _ => .ok (.val (.int id), none) }

/-- A sample request: path parameters `a`, `b`, no content type, a JSON body that decodes
to a populated object and bodies the other decoders reject. -/
def sampleCtx : Ctx :=
  { Params := [.str "a", .str "b"]
    ContentTypeRequested := ""
    ReadXML := fun t => (.obj t "", some (.other "xml: syntax error"))
    ReadYAML := fun t => (.obj t "", some (.other "yaml: syntax error"))
    ReadQuery := fun t => (.obj t "", some (.other "form: empty"))
    ReadForm := fun t => (.obj t "", some (.other "form: empty"))
    ReadJSON := fun t => (.obj t "body", none) }

/-- The `Input.Index` values of a list of bindings, in order. -/
def inputIndices (bs : List Binding) : List Int :=
  bs.filterMap (fun b => b.Input.map (fun inp => inp.Index))

/-- The relation between an engine binding `b` and its back-filled form `fb`: `b` is the
binding of the field at some position `i` of `fields` (its type, no field path yet), and
`fb` is `b` with the index path of `fields[i]` as `StructFieldIndex`. -/
def backFilled (fields : List StructField) (b fb : Binding) : Prop :=
  ∃ i, ∃ hi : i < fields.length,
    b.Input = some { Index := (i : Int), StructFieldIndex := none, Typ := fields[i].Typ } ∧
    fb = { Dependency := b.Dependency
           Input := some { Index := (i : Int), StructFieldIndex := some fields[i].Index,
                           Typ := fields[i].Typ } }

/-- The struct value `{Name: "", Age: 0}` of type `struct {Name string; Age int}`. -/
def nameAgeZero : StructValue :=
  reflectStruct "T" [{ Name := "Name", Typ := .string, value := .str "" },
    { Name := "Age", Typ := .int, value := .int 0 }]

/-! # Lemmas and theorems -/

/-! ## The inner scan -/

theorem scanDeps_some {E : Env} {inp : RType} {deps : List Dependency} {binded : List Nat} :
    ∀ {n j : Nat}, scanDeps E inp deps binded n = some j →
      j < n ∧ j ∉ binded ∧ (∃ d, deps[j]? = some d ∧ matchDependency E d inp = true) ∧
      ∀ j2, j2 < n → j2 ∉ binded →
        (∃ d, deps[j2]? = some d ∧ matchDependency E d inp = true) → j2 ≤ j := by
  intro n
  induction n with
  | zero => intro j h; simp [scanDeps] at h
  | succ n ih =>
    intro j h
    have key : scanDeps E inp deps binded n = some j →
        (n ∈ binded ∨ ¬ ∃ d, deps[n]? = some d ∧ matchDependency E d inp = true) →
        j < n + 1 ∧ j ∉ binded ∧ (∃ d, deps[j]? = some d ∧ matchDependency E d inp = true) ∧
        ∀ j2, j2 < n + 1 → j2 ∉ binded →
          (∃ d, deps[j2]? = some d ∧ matchDependency E d inp = true) → j2 ≤ j := by
      intro h2 hn
      obtain ⟨h1, h3, h4, h5⟩ := ih h2
      refine ⟨by omega, h3, h4, ?_⟩
      intro j2 hj2 hb hm
      rcases Nat.lt_succ_iff_lt_or_eq.mp hj2 with hlt | heq
      · exact h5 j2 hlt hb hm
      · subst heq
        rcases hn with hn | hn
        · exact absurd hn hb
        · exact absurd hm hn
    unfold scanDeps at h
    cases hd : deps[n]? with
    | none =>
      simp only [hd] at h
      exact key h (Or.inr (by simp [hd]))
    | some d =>
      simp only [hd] at h
      by_cases hb : n ∈ binded
      · simp only [hb, if_true] at h
        exact key h (Or.inl hb)
      · simp only [hb, if_false] at h
        by_cases hm : matchDependency E d inp = true
        · simp only [hm, if_true] at h
          have hj : n = j := Option.some.inj h
          subst hj
          refine ⟨Nat.lt_succ_self _, hb, ⟨d, hd, hm⟩, ?_⟩
          intro j2 hj2 _ _
          omega
        · simp only [hm] at h
          refine key h (Or.inr ?_)
          rintro ⟨d2, hd2, hm2⟩
          rw [hd] at hd2
          cases hd2
          exact hm hm2

theorem scanDeps_none {E : Env} {inp : RType} {deps : List Dependency} {binded : List Nat} :
    ∀ {n : Nat}, scanDeps E inp deps binded n = none →
      ∀ j, j < n → j ∉ binded → ¬ ∃ d, deps[j]? = some d ∧ matchDependency E d inp = true := by
  intro n
  induction n with
  | zero => intro _ j hj; omega
  | succ n ih =>
    intro h j hj hb
    unfold scanDeps at h
    cases hd : deps[n]? with
    | none =>
      simp only [hd] at h
      rcases Nat.lt_succ_iff_lt_or_eq.mp hj with hlt | heq
      · exact ih h j hlt hb
      · subst heq; simp [hd]
    | some d =>
      simp only [hd] at h
      by_cases hbn : n ∈ binded
      · simp only [hbn, if_true] at h
        rcases Nat.lt_succ_iff_lt_or_eq.mp hj with hlt | heq
        · exact ih h j hlt hb
        · subst heq; exact absurd hbn hb
      · simp only [hbn, if_false] at h
        by_cases hm : matchDependency E d inp = true
        · simp [hm] at h
        · simp only [hm] at h
          rcases Nat.lt_succ_iff_lt_or_eq.mp hj with hlt | heq
          · exact ih h j hlt hb
          · subst heq
            rintro ⟨d2, hd2, hm2⟩
            rw [hd] at hd2
            cases hd2
            exact hm hm2

/-- The scan of the whole pool finds the greatest eligible position. -/
theorem scan_some_iff {E : Env} {inp : RType} {s : State} {j : Nat} :
    scanDeps E inp s.deps s.bindedInput s.deps.length = some j ↔
      eligible E s inp j ∧ ∀ j2, eligible E s inp j2 → j2 ≤ j := by
  constructor
  · intro h
    obtain ⟨_, h2, h3, h4⟩ := scanDeps_some h
    refine ⟨⟨h2, h3⟩, ?_⟩
    rintro j2 ⟨hb, d, hd, hm⟩
    have hlt : j2 < s.deps.length := by
      rcases List.getElem?_eq_some_iff.mp hd with ⟨hl, _⟩
      exact hl
    exact h4 j2 hlt hb ⟨d, hd, hm⟩
  · rintro ⟨⟨hb, d, hd, hm⟩, hmax⟩
    have hlt : j < s.deps.length := by
      rcases List.getElem?_eq_some_iff.mp hd with ⟨hl, _⟩
      exact hl
    cases hs : scanDeps E inp s.deps s.bindedInput s.deps.length with
    | none => exact absurd ⟨d, hd, hm⟩ (scanDeps_none hs j hlt hb)
    | some j1 =>
      obtain ⟨_, h2, h3, h4⟩ := scanDeps_some hs
      have h5 := h4 j hlt hb ⟨d, hd, hm⟩
      have h6 := hmax j1 ⟨h2, h3⟩
      have : j1 = j := by omega
      rw [this]

theorem scan_none_iff {E : Env} {inp : RType} {s : State} :
    scanDeps E inp s.deps s.bindedInput s.deps.length = none ↔ ∀ j, ¬ eligible E s inp j := by
  constructor
  · intro h j hel
    obtain ⟨hb, d, hd, hm⟩ := hel
    have hlt : j < s.deps.length := by
      rcases List.getElem?_eq_some_iff.mp hd with ⟨hl, _⟩
      exact hl
    exact scanDeps_none h j hlt hb ⟨d, hd, hm⟩
  · intro h
    cases hs : scanDeps E inp s.deps s.bindedInput s.deps.length with
    | none => rfl
    | some j => exact absurd (scan_some_iff.mp hs).1 (h j)

/-! ## One round of the outer loop -/

theorem bindInput_matched {E : Env} {p : Int} {i : Nat} {inp : RType} {s : State} {j : Nat}
    {d : Dependency} (hs : scanDeps E inp s.deps s.bindedInput s.deps.length = some j)
    (hd : s.deps[j]? = some d) :
    bindInput E p i inp s =
      { bindings := s.bindings ++
          [{ Dependency := some (.pool j), Input := some (newInput inp i none) }]
        bindedInput := if !d.Explicit then j :: s.bindedInput else s.bindedInput
        lastParamIndex :=
          if canBePathParameter E p inp then wrapInt (s.lastParamIndex + 1) else s.lastParamIndex
        deps :=
          if canBePathParameter E p inp then s.deps.set j (wrapParam s.lastParamIndex d)
          else s.deps } := by
  simp only [bindInput, hs, hd]

theorem bindInput_param {E : Env} {p : Int} {i : Nat} {inp : RType} {s : State}
    (hs : scanDeps E inp s.deps s.bindedInput s.deps.length = none)
    (hc : canBePathParameter E p inp = true) :
    bindInput E p i inp s =
      { s with
        bindings := s.bindings ++ [paramBinding i s.lastParamIndex inp]
        lastParamIndex := wrapInt (s.lastParamIndex + 1) } := by
  simp only [bindInput, hs, hc, if_true]

theorem bindInput_payload {E : Env} {p : Int} {i : Nat} {inp : RType} {s : State}
    (hs : scanDeps E inp s.deps s.bindedInput s.deps.length = none)
    (hc : canBePathParameter E p inp = false)
    (hk : (indirectType inp).Kind = Kind.Struct) :
    bindInput E p i inp s = { s with bindings := s.bindings ++ [payloadBinding i inp] } := by
  simp [bindInput, hs, hc, hk]

theorem bindInput_skip {E : Env} {p : Int} {i : Nat} {inp : RType} {s : State}
    (hs : scanDeps E inp s.deps s.bindedInput s.deps.length = none)
    (hc : canBePathParameter E p inp = false)
    (hk : (indirectType inp).Kind ≠ Kind.Struct) :
    bindInput E p i inp s = s := by
  simp [bindInput, hs, hc, hk]

/-- What a round can do, by the four ways through the loop body. -/
theorem bindInput_cases (E : Env) (p : Int) (i : Nat) (inp : RType) (s : State) :
    (∃ j d, scanDeps E inp s.deps s.bindedInput s.deps.length = some j ∧ s.deps[j]? = some d ∧
      bindInput E p i inp s =
        { bindings := s.bindings ++
            [{ Dependency := some (.pool j), Input := some (newInput inp i none) }]
          bindedInput := if !d.Explicit then j :: s.bindedInput else s.bindedInput
          lastParamIndex :=
            if canBePathParameter E p inp then wrapInt (s.lastParamIndex + 1)
            else s.lastParamIndex
          deps :=
            if canBePathParameter E p inp then s.deps.set j (wrapParam s.lastParamIndex d)
            else s.deps }) ∨
    (scanDeps E inp s.deps s.bindedInput s.deps.length = none ∧
      canBePathParameter E p inp = true ∧
      bindInput E p i inp s =
        { s with
          bindings := s.bindings ++ [paramBinding i s.lastParamIndex inp]
          lastParamIndex := wrapInt (s.lastParamIndex + 1) }) ∨
    (scanDeps E inp s.deps s.bindedInput s.deps.length = none ∧
      canBePathParameter E p inp = false ∧ (indirectType inp).Kind = Kind.Struct ∧
      bindInput E p i inp s = { s with bindings := s.bindings ++ [payloadBinding i inp] }) ∨
    (scanDeps E inp s.deps s.bindedInput s.deps.length = none ∧
      canBePathParameter E p inp = false ∧ (indirectType inp).Kind ≠ Kind.Struct ∧
      bindInput E p i inp s = s) := by
  cases hs : scanDeps E inp s.deps s.bindedInput s.deps.length with
  | some j =>
    obtain ⟨_, _, ⟨d, hd, _⟩, _⟩ := scanDeps_some hs
    exact Or.inl ⟨j, d, rfl, hd, bindInput_matched hs hd⟩
  | none =>
    cases hc : canBePathParameter E p inp with
    | true => exact Or.inr (Or.inl ⟨rfl, rfl, bindInput_param hs hc⟩)
    | false =>
      by_cases hk : (indirectType inp).Kind = Kind.Struct
      · exact Or.inr (Or.inr (Or.inl ⟨rfl, rfl, hk, bindInput_payload hs hc hk⟩))
      · exact Or.inr (Or.inr (Or.inr ⟨rfl, rfl, hk, bindInput_skip hs hc hk⟩))

/-! ## The outer loop and its intermediate states -/

theorem loopInputs_append (E : Env) (p : Int) :
    ∀ (xs ys : List RType) (i : Nat) (s : State),
      loopInputs E p i (xs ++ ys) s = loopInputs E p (i + xs.length) ys (loopInputs E p i xs s) := by
  intro xs
  induction xs with
  | nil => intro ys i s; simp [loopInputs]
  | cons x xs ih =>
    intro ys i s
    have h := ih ys (i + 1) (bindInput E p i x s)
    have e : i + 1 + xs.length = i + (xs.length + 1) := by omega
    rw [e] at h
    simpa [loopInputs] using h

theorem stateAt_zero (E : Env) (inputs : List RType) (deps : List Dependency) (p : Int) :
    stateAt E inputs deps p 0 = initState deps p := by
  simp [stateAt, loopInputs]

theorem stateAt_succ (E : Env) (inputs : List RType) (deps : List Dependency) (p : Int)
    {k : Nat} (hk : k < inputs.length) :
    stateAt E inputs deps p (k + 1) = bindInput E p k inputs[k] (stateAt E inputs deps p k) := by
  unfold stateAt
  rw [List.take_succ, List.getElem?_eq_getElem hk]
  simp only [Option.toList_some]
  rw [loopInputs_append]
  simp [loopInputs, List.length_take, Nat.min_eq_left (Nat.le_of_lt hk)]

theorem stateAt_length (E : Env) (inputs : List RType) (deps : List Dependency) (p : Int) :
    stateAt E inputs deps p inputs.length = runBindingsFor E inputs deps p := by
  simp [stateAt, runBindingsFor]

theorem getBindingsFor_eq (E : Env) (inputs : List RType) (deps : List Dependency) (p : Int) :
    getBindingsFor E inputs deps p =
      ((stateAt E inputs deps p inputs.length).bindings,
       (stateAt E inputs deps p inputs.length).deps) := by
  rw [stateAt_length]; rfl

theorem stateAt_induction {E : Env} {inputs : List RType} {deps : List Dependency} {p : Int}
    (P : Nat → State → Prop) (h0 : P 0 (initState deps p))
    (hstep : ∀ k (hk : k < inputs.length), P k (stateAt E inputs deps p k) →
      P (k + 1) (bindInput E p k inputs[k] (stateAt E inputs deps p k))) :
    ∀ k, k ≤ inputs.length → P k (stateAt E inputs deps p k) := by
  intro k
  induction k with
  | zero => intro _; rw [stateAt_zero]; exact h0
  | succ k ih =>
    intro hk
    rw [stateAt_succ E inputs deps p hk]
    exact hstep k hk (ih (Nat.le_of_lt hk))

/-! ## The bindings a round appends -/

theorem bindings_bindInput (E : Env) (p : Int) (i : Nat) (inp : RType) (s : State) :
    (bindInput E p i inp s).bindings = s.bindings ++ emitted E p i inp s := by
  unfold emitted
  rcases bindInput_cases E p i inp s with ⟨j, d, _, _, h⟩ | ⟨_, _, h⟩ | ⟨_, _, _, h⟩ | ⟨_, _, _, h⟩ <;>
    rw [h] <;> simp

theorem emitted_matched {E : Env} {p : Int} {i : Nat} {inp : RType} {s : State} {j : Nat}
    (hs : scanDeps E inp s.deps s.bindedInput s.deps.length = some j) :
    emitted E p i inp s =
      [{ Dependency := some (.pool j), Input := some (newInput inp i none) }] := by
  obtain ⟨_, _, ⟨d, hd, _⟩, _⟩ := scanDeps_some hs
  unfold emitted
  rw [bindInput_matched hs hd]
  simp

theorem emitted_param {E : Env} {p : Int} {i : Nat} {inp : RType} {s : State}
    (hs : scanDeps E inp s.deps s.bindedInput s.deps.length = none)
    (hc : canBePathParameter E p inp = true) :
    emitted E p i inp s = [paramBinding i s.lastParamIndex inp] := by
  unfold emitted
  rw [bindInput_param hs hc]
  simp

theorem emitted_payload {E : Env} {p : Int} {i : Nat} {inp : RType} {s : State}
    (hs : scanDeps E inp s.deps s.bindedInput s.deps.length = none)
    (hc : canBePathParameter E p inp = false)
    (hk : (indirectType inp).Kind = Kind.Struct) :
    emitted E p i inp s = [payloadBinding i inp] := by
  unfold emitted
  rw [bindInput_payload hs hc hk]
  simp

theorem emitted_skip {E : Env} {p : Int} {i : Nat} {inp : RType} {s : State}
    (hs : scanDeps E inp s.deps s.bindedInput s.deps.length = none)
    (hc : canBePathParameter E p inp = false)
    (hk : (indirectType inp).Kind ≠ Kind.Struct) :
    emitted E p i inp s = [] := by
  unfold emitted
  rw [bindInput_skip hs hc hk]
  simp

theorem emitted_length_le (E : Env) (p : Int) (i : Nat) (inp : RType) (s : State) :
    (emitted E p i inp s).length ≤ 1 := by
  cases hs : scanDeps E inp s.deps s.bindedInput s.deps.length with
  | some j => rw [emitted_matched hs]; simp
  | none =>
    cases hc : canBePathParameter E p inp with
    | true => rw [emitted_param hs hc]; simp
    | false =>
      by_cases hk : (indirectType inp).Kind = Kind.Struct
      · rw [emitted_payload hs hc hk]; simp
      · rw [emitted_skip hs hc hk]; simp

theorem input_of_mem_emitted {E : Env} {p : Int} {i : Nat} {inp : RType} {s : State}
    {b : Binding} (hb : b ∈ emitted E p i inp s) :
    b.Input = some (newInput inp i none) := by
  cases hs : scanDeps E inp s.deps s.bindedInput s.deps.length with
  | some j =>
    rw [emitted_matched hs] at hb
    simp only [List.mem_singleton] at hb
    rw [hb]
  | none =>
    cases hc : canBePathParameter E p inp with
    | true =>
      rw [emitted_param hs hc] at hb
      simp only [List.mem_singleton] at hb
      rw [hb]; rfl
    | false =>
      by_cases hk : (indirectType inp).Kind = Kind.Struct
      · rw [emitted_payload hs hc hk] at hb
        simp only [List.mem_singleton] at hb
        rw [hb]; rfl
      · rw [emitted_skip hs hc hk] at hb
        simp at hb

theorem emittedAt_eq {E : Env} {inputs : List RType} {deps : List Dependency} {p : Int}
    {i : Nat} (hi : i < inputs.length) :
    emittedAt E inputs deps p i = emitted E p i inputs[i] (stateAt E inputs deps p i) := by
  simp [emittedAt, List.getElem?_eq_getElem hi]

theorem emittedAt_length_le (E : Env) (inputs : List RType) (deps : List Dependency) (p : Int)
    (i : Nat) : (emittedAt E inputs deps p i).length ≤ 1 := by
  unfold emittedAt
  cases inputs[i]? with
  | none => simp
  | some inp => exact emitted_length_le _ _ _ _ _

theorem bindings_stateAt_succ (E : Env) (inputs : List RType) (deps : List Dependency) (p : Int)
    {k : Nat} (hk : k < inputs.length) :
    (stateAt E inputs deps p (k + 1)).bindings =
      (stateAt E inputs deps p k).bindings ++ emittedAt E inputs deps p k := by
  rw [stateAt_succ E inputs deps p hk, bindings_bindInput, emittedAt_eq hk]

theorem input_of_mem_emittedAt {E : Env} {inputs : List RType} {deps : List Dependency}
    {p : Int} {i : Nat} {b : Binding} (hb : b ∈ emittedAt E inputs deps p i) :
    ∃ hi : i < inputs.length, b.Input = some (newInput inputs[i] i none) := by
  by_cases hi : i < inputs.length
  · rw [emittedAt_eq hi] at hb
    exact ⟨hi, input_of_mem_emitted hb⟩
  · have : inputs[i]? = none := List.getElem?_eq_none (Nat.le_of_not_lt hi)
    simp [emittedAt, this] at hb

/-- Every binding present after `k` inputs was appended by one of the rounds `i < k`. -/
theorem mem_bindings_stateAt {E : Env} {inputs : List RType} {deps : List Dependency} {p : Int}
    {b : Binding} :
    ∀ k, k ≤ inputs.length →
      (b ∈ (stateAt E inputs deps p k).bindings ↔ ∃ i, i < k ∧ b ∈ emittedAt E inputs deps p i) := by
  intro k
  induction k with
  | zero => intro _; simp [stateAt_zero, initState]
  | succ k ih =>
    intro hk
    rw [bindings_stateAt_succ E inputs deps p hk, List.mem_append, ih (Nat.le_of_lt hk)]
    constructor
    · rintro (⟨i, hi, hb⟩ | hb)
      · exact ⟨i, by omega, hb⟩
      · exact ⟨k, by omega, hb⟩
    · rintro ⟨i, hi, hb⟩
      rcases Nat.lt_succ_iff_lt_or_eq.mp hi with hlt | heq
      · exact Or.inl ⟨i, hlt, hb⟩
      · subst heq; exact Or.inr hb

/-- The bindings of the result are those appended by the rounds. -/
theorem mem_getBindingsFor {E : Env} {inputs : List RType} {deps : List Dependency} {p : Int}
    {b : Binding} :
    b ∈ (getBindingsFor E inputs deps p).1 ↔
      ∃ i, i < inputs.length ∧ b ∈ emittedAt E inputs deps p i := by
  rw [getBindingsFor_eq]
  exact mem_bindings_stateAt inputs.length (Nat.le_refl _)

/-- The bindings of the result with `Input.Index = i` are those appended by round `i`. -/
theorem mem_getBindingsFor_index {E : Env} {inputs : List RType} {deps : List Dependency}
    {p : Int} {b : Binding} {i : Nat} (hi : i < inputs.length) :
    (b ∈ (getBindingsFor E inputs deps p).1 ∧ ∃ inp, b.Input = some inp ∧ inp.Index = (i : Int)) ↔
      b ∈ emittedAt E inputs deps p i := by
  constructor
  · rintro ⟨hb, inp, hinp, hidx⟩
    obtain ⟨i2, _, hb2⟩ := mem_getBindingsFor.mp hb
    obtain ⟨_, h3⟩ := input_of_mem_emittedAt hb2
    rw [hinp] at h3
    have h4 : inp.Index = (i2 : Int) := by
      have := Option.some.inj h3
      rw [this]; rfl
    have : i2 = i := by
      rw [h4] at hidx
      exact_mod_cast hidx
    rw [← this]; exact hb2
  · intro hb
    obtain ⟨_, h3⟩ := input_of_mem_emittedAt hb
    exact ⟨mem_getBindingsFor.mpr ⟨i, hi, hb⟩, _, h3, rfl⟩

theorem length_bindings_stateAt (E : Env) (inputs : List RType) (deps : List Dependency)
    (p : Int) : ∀ k, k ≤ inputs.length → (stateAt E inputs deps p k).bindings.length ≤ k := by
  intro k
  induction k with
  | zero => intro _; simp [stateAt_zero, initState]
  | succ k ih =>
    intro hk
    rw [bindings_stateAt_succ E inputs deps p hk, List.length_append]
    have := ih (Nat.le_of_lt hk)
    have := emittedAt_length_le E inputs deps p k
    omega

theorem bindingsOfInput_stateAt (E : Env) (inputs : List RType) (deps : List Dependency)
    (p : Int) (i : Nat) :
    ∀ k, k ≤ inputs.length →
      bindingsOfInput (stateAt E inputs deps p k).bindings i =
        if i < k then emittedAt E inputs deps p i else [] := by
  intro k
  induction k with
  | zero => intro _; simp [stateAt_zero, initState, bindingsOfInput]
  | succ k ih =>
    intro hk
    rw [bindings_stateAt_succ E inputs deps p hk]
    unfold bindingsOfInput at ih ⊢
    rw [List.filter_append, ih (Nat.le_of_lt hk)]
    by_cases hik : i = k
    · subst hik
      have hall : ∀ b ∈ emittedAt E inputs deps p i,
          (match b.Input with
            | some inp => inp.Index == (i : Int)
            | none => false) = true := by
        intro b hb
        obtain ⟨_, h⟩ := input_of_mem_emittedAt hb
        rw [h]; simp [newInput]
      rw [List.filter_eq_self.mpr hall]
      simp
    · have hnone : ∀ b ∈ emittedAt E inputs deps p k,
          ¬ (match b.Input with
            | some inp => inp.Index == (i : Int)
            | none => false) = true := by
        intro b hb
        obtain ⟨_, h⟩ := input_of_mem_emittedAt hb
        rw [h]
        simp only [newInput, beq_iff_eq]
        intro hc
        exact hik (by exact_mod_cast hc.symm)
      rw [List.filter_eq_nil_iff.mpr hnone]
      by_cases hlt : i < k
      · have : i < k + 1 := by omega
        simp [hlt, this]
      · have : ¬ i < k + 1 := by omega
        simp [hlt, this]

/-- The bindings of the result that carry `Input.Index = i` are exactly those appended
while input `i` was handled. -/
theorem bindingsOfInput_getBindingsFor (E : Env) (inputs : List RType) (deps : List Dependency)
    (p : Int) {i : Nat} (hi : i < inputs.length) :
    bindingsOfInput (getBindingsFor E inputs deps p).1 i = emittedAt E inputs deps p i := by
  rw [getBindingsFor_eq]
  simp only
  rw [bindingsOfInput_stateAt E inputs deps p i inputs.length (Nat.le_refl _)]
  simp [hi]

/-! ## The pool along the loop -/

theorem sig_wrapParam (q : Int) (d : Dependency) : (wrapParam q d).sig = d.sig := rfl

theorem matchDependency_of_sig {E : Env} {d1 d2 : Dependency} (h : d1.sig = d2.sig)
    (inp : RType) : matchDependency E d1 inp = matchDependency E d2 inp := by
  have h1 : d1.Explicit = d2.Explicit := congrArg Prod.fst h
  have h2 : d1.DestType = d2.DestType := congrArg Prod.snd h
  simp [matchDependency, h1, h2]

theorem map_sig_set {l : List Dependency} {j : Nat} {d : Dependency} (q : Int)
    (hd : l[j]? = some d) : (l.set j (wrapParam q d)).map Dependency.sig = l.map Dependency.sig := by
  apply List.ext_getElem?
  intro n
  by_cases hn : j = n
  · subst hn
    obtain ⟨hlt, hget⟩ := List.getElem?_eq_some_iff.mp hd
    simp [List.getElem?_set, hlt, sig_wrapParam, hget]
  · simp [List.getElem?_set, hn]

theorem map_sig_bindInput (E : Env) (p : Int) (i : Nat) (inp : RType) (s : State) :
    (bindInput E p i inp s).deps.map Dependency.sig = s.deps.map Dependency.sig := by
  rcases bindInput_cases E p i inp s with ⟨j, d, _, hd, h⟩ | ⟨_, _, h⟩ | ⟨_, _, _, h⟩ | ⟨_, _, _, h⟩ <;>
    rw [h]
  simp only
  split
  · exact map_sig_set _ hd
  · rfl

theorem map_sig_stateAt (E : Env) (inputs : List RType) (deps : List Dependency) (p : Int) :
    ∀ k, k ≤ inputs.length →
      (stateAt E inputs deps p k).deps.map Dependency.sig = deps.map Dependency.sig := by
  apply stateAt_induction (fun _ s => s.deps.map Dependency.sig = deps.map Dependency.sig)
  · rfl
  · intro k hk ih
    simp only at ih ⊢
    rw [map_sig_bindInput, ih]

theorem sig_getElem?_stateAt {E : Env} {inputs : List RType} {deps : List Dependency} {p : Int}
    {k : Nat} (hk : k ≤ inputs.length) (j : Nat) :
    ((stateAt E inputs deps p k).deps[j]?).map Dependency.sig = (deps[j]?).map Dependency.sig := by
  have h := map_sig_stateAt E inputs deps p k hk
  have := congrArg (fun l => l[j]?) h
  simpa [List.getElem?_map] using this

theorem length_deps_stateAt {E : Env} {inputs : List RType} {deps : List Dependency} {p : Int}
    {k : Nat} (hk : k ≤ inputs.length) :
    (stateAt E inputs deps p k).deps.length = deps.length := by
  have h := congrArg List.length (map_sig_stateAt E inputs deps p k hk)
  simpa using h

/-- A pool entry of an intermediate state corresponds to an entry of the initial pool with
the same `Explicit` and `DestType`, hence the same matching behaviour. -/
theorem entry_stateAt {E : Env} {inputs : List RType} {deps : List Dependency} {p : Int}
    {k : Nat} (hk : k ≤ inputs.length) {j : Nat} {d : Dependency}
    (hd : (stateAt E inputs deps p k).deps[j]? = some d) :
    ∃ d0, deps[j]? = some d0 ∧ d0.sig = d.sig := by
  have h := @sig_getElem?_stateAt E inputs deps p k hk j
  rw [hd] at h
  cases h0 : deps[j]? with
  | none => rw [h0] at h; simp at h
  | some d0 =>
    rw [h0] at h
    simp only [Option.map_some', Option.some.injEq] at h
    exact ⟨d0, rfl, h.symm⟩

theorem entry_stateAt_of_init {E : Env} {inputs : List RType} {deps : List Dependency} {p : Int}
    {k : Nat} (hk : k ≤ inputs.length) {j : Nat} {d0 : Dependency}
    (hd : deps[j]? = some d0) :
    ∃ d, (stateAt E inputs deps p k).deps[j]? = some d ∧ d.sig = d0.sig := by
  have h := @sig_getElem?_stateAt E inputs deps p k hk j
  rw [hd] at h
  cases h0 : (stateAt E inputs deps p k).deps[j]? with
  | none => rw [h0] at h; simp at h
  | some d =>
    rw [h0] at h
    simp only [Option.map_some', Option.some.injEq] at h
    exact ⟨d, rfl, h⟩

/-! ## C1: the function binder -/

theorem length_getBindingsFor_le (E : Env) (inputs : List RType) (deps : List Dependency)
    (p : Int) : (getBindingsFor E inputs deps p).1.length ≤ inputs.length := by
  rw [getBindingsFor_eq]
  exact length_bindings_stateAt E inputs deps p inputs.length (Nat.le_refl _)

/-- C1: for a callable with parameter types `ins` (so `n = ins.length`), any pool and any
`paramStartIndex`, `getBindingsFor` never yields more than `n` bindings;
`getBindingsForFunc` aborts exactly when `getBindingsFor` yields fewer than `n` bindings;
and whenever it returns, it returns the result of `getBindingsFor`, which then has
exactly `n` bindings. -/
theorem getBindingsForFunc_coverage (E : Env) (ins : List RType) (deps : List Dependency)
    (p : Int) :
    (getBindingsFor E ins deps p).1.length ≤ ins.length ∧
    ((∃ msg, getBindingsForFunc E (.func ins) deps p = .error msg) ↔
      (getBindingsFor E ins deps p).1.length < ins.length) ∧
    (∀ r, getBindingsForFunc E (.func ins) deps p = .ok r →
      r = getBindingsFor E ins deps p ∧ r.1.length = ins.length) ∧
    ((getBindingsFor E ins deps p).1.length = ins.length →
      getBindingsForFunc E (.func ins) deps p = .ok (getBindingsFor E ins deps p)) := by
  have hle := length_getBindingsFor_le E ins deps p
  refine ⟨hle, ?_, ?_, ?_⟩
  · by_cases h : (getBindingsFor E ins deps p).1.length < ins.length
    · simp [getBindingsForFunc, h]
    · simp [getBindingsForFunc, h]
  · intro r hr
    by_cases h : (getBindingsFor E ins deps p).1.length < ins.length
    · simp [getBindingsForFunc, h] at hr
    · simp only [getBindingsForFunc, gt_iff_lt, h, if_false] at hr
      have : getBindingsFor E ins deps p = r := Except.ok.inj hr
      subst this
      exact ⟨rfl, by omega⟩
  · intro h
    have h2 : ¬ (getBindingsFor E ins deps p).1.length < ins.length := by omega
    simp [getBindingsForFunc, h2]

/-! ## Consumption of pool entries -/

theorem poolUses_append_pool (bs : List Binding) (j j0 : Nat) (inp : Option Input) :
    poolUses (bs ++ [{ Dependency := some (.pool j0), Input := inp }]) j =
      poolUses bs j + (if j0 = j then 1 else 0) := by
  unfold poolUses
  rw [List.countP_append]
  by_cases h : j0 = j
  · subst h; simp [List.countP_cons]
  · simp [List.countP_cons, h]

theorem poolUses_append_fresh (bs : List Binding) (j : Nat) (d : Dependency)
    (inp : Option Input) :
    poolUses (bs ++ [{ Dependency := some (.fresh d), Input := inp }]) j = poolUses bs j := by
  unfold poolUses
  rw [List.countP_append]
  simp [List.countP_cons]

/-- Consumed positions hold implicit entries; an implicit entry is used by at most one
binding, and by none while it is not consumed. -/
theorem consumed_stateAt (E : Env) (inputs : List RType) (deps : List Dependency) (p : Int) :
    ∀ k, k ≤ inputs.length →
      (∀ j, j ∈ (stateAt E inputs deps p k).bindedInput →
        ∃ d0, deps[j]? = some d0 ∧ d0.Explicit = false) ∧
      (∀ j d0, deps[j]? = some d0 → d0.Explicit = false →
        poolUses (stateAt E inputs deps p k).bindings j ≤ 1 ∧
        (j ∉ (stateAt E inputs deps p k).bindedInput →
          poolUses (stateAt E inputs deps p k).bindings j = 0)) := by
  apply stateAt_induction (fun _ s =>
      (∀ j, j ∈ s.bindedInput → ∃ d0, deps[j]? = some d0 ∧ d0.Explicit = false) ∧
      (∀ j d0, deps[j]? = some d0 → d0.Explicit = false →
        poolUses s.bindings j ≤ 1 ∧ (j ∉ s.bindedInput → poolUses s.bindings j = 0)))
  · refine ⟨?_, ?_⟩
    · intro j hj; simp [initState] at hj
    · intro j d0 _ _; simp [initState, poolUses]
  · intro k hk ih
    obtain ⟨ih1, ih2⟩ := ih
    rcases bindInput_cases E p k inputs[k] (stateAt E inputs deps p k) with
      ⟨j0, d, hs, hd, h⟩ | ⟨_, _, h⟩ | ⟨_, _, _, h⟩ | ⟨_, _, _, h⟩
    · rw [h]
      obtain ⟨d00, hd00, hsig⟩ := entry_stateAt (Nat.le_of_lt hk) hd
      have hexp : d00.Explicit = d.Explicit := congrArg Prod.fst hsig
      have hnb : j0 ∉ (stateAt E inputs deps p k).bindedInput := (scan_some_iff.mp hs).1.1
      refine ⟨?_, ?_⟩
      · intro j hj
        simp only at hj
        cases hE : d.Explicit with
        | true =>
          simp only [hE, Bool.not_true, Bool.false_eq_true, if_false] at hj
          exact ih1 j hj
        | false =>
          simp only [hE, Bool.not_false, if_true, List.mem_cons] at hj
          rcases hj with hj | hj
          · subst hj
            exact ⟨d00, hd00, by rw [hexp, hE]⟩
          · exact ih1 j hj
      · intro j d0 hd0 he
        obtain ⟨hle, hz⟩ := ih2 j d0 hd0 he
        simp only
        rw [poolUses_append_pool]
        by_cases hj : j0 = j
        · subst hj
          have hE : d.Explicit = false := by
            rw [hd00] at hd0
            cases hd0
            rw [← hexp]; exact he
          have h0 := hz hnb
          simp [hE, h0]
        · simp only [hj, if_false, Nat.add_zero]
          refine ⟨hle, ?_⟩
          intro hnot
          apply hz
          intro hmem
          apply hnot
          split
          · exact List.mem_cons_of_mem _ hmem
          · exact hmem
    · rw [h]
      refine ⟨ih1, ?_⟩
      intro j d0 hd0 he
      simp only [paramBinding]
      rw [poolUses_append_fresh]
      exact ih2 j d0 hd0 he
    · rw [h]
      refine ⟨ih1, ?_⟩
      intro j d0 hd0 he
      simp only [payloadBinding]
      rw [poolUses_append_fresh]
      exact ih2 j d0 hd0 he
    · rw [h]
      exact ⟨ih1, ih2⟩

/-- A consumed position has been used by a binding. -/
theorem used_of_consumed_stateAt (E : Env) (inputs : List RType) (deps : List Dependency)
    (p : Int) :
    ∀ k, k ≤ inputs.length →
      ∀ j, j ∈ (stateAt E inputs deps p k).bindedInput →
        0 < poolUses (stateAt E inputs deps p k).bindings j := by
  apply stateAt_induction (fun _ s => ∀ j, j ∈ s.bindedInput → 0 < poolUses s.bindings j)
  · intro j hj; simp [initState] at hj
  · intro k hk ih
    rcases bindInput_cases E p k inputs[k] (stateAt E inputs deps p k) with
      ⟨j0, d, hs, hd, h⟩ | ⟨_, _, h⟩ | ⟨_, _, _, h⟩ | ⟨_, _, _, h⟩
    · rw [h]
      intro j hj
      simp only at hj ⊢
      rw [poolUses_append_pool]
      by_cases hj0 : j0 = j
      · simp [hj0]
      · have hmem : j ∈ (stateAt E inputs deps p k).bindedInput := by
          split at hj
          · rcases List.mem_cons.mp hj with h1 | h1
            · exact absurd h1.symm hj0
            · exact h1
          · exact hj
        have := ih j hmem
        simp only [hj0, if_false, Nat.add_zero]
        exact this
    · rw [h]
      intro j hj
      simp only [paramBinding] at hj ⊢
      rw [poolUses_append_fresh]
      exact ih j hj
    · rw [h]
      intro j hj
      simp only [payloadBinding] at hj ⊢
      rw [poolUses_append_fresh]
      exact ih j hj
    · rw [h]
      exact ih

/-- A position is consumed exactly when its entry is implicit and a binding uses it. -/
theorem mem_bindedInput_iff {E : Env} {inputs : List RType} {deps : List Dependency} {p : Int}
    {k : Nat} (hk : k ≤ inputs.length) (j : Nat) :
    j ∈ (stateAt E inputs deps p k).bindedInput ↔
      ∃ d0, deps[j]? = some d0 ∧ d0.Explicit = false ∧
        0 < poolUses (stateAt E inputs deps p k).bindings j := by
  constructor
  · intro hj
    obtain ⟨d0, hd0, he⟩ := (consumed_stateAt E inputs deps p k hk).1 j hj
    exact ⟨d0, hd0, he, used_of_consumed_stateAt E inputs deps p k hk j hj⟩
  · rintro ⟨d0, hd0, he, hpos⟩
    by_contra hnot
    have := ((consumed_stateAt E inputs deps p k hk).2 j d0 hd0 he).2 hnot
    omega

/-- The eligible positions of an intermediate state, read on the initial pool. -/
theorem eligible_stateAt_iff {E : Env} {inputs : List RType} {deps : List Dependency} {p : Int}
    {k : Nat} (hk : k ≤ inputs.length) (inp : RType) (j : Nat) :
    eligible E (stateAt E inputs deps p k) inp j ↔
      j ∉ (stateAt E inputs deps p k).bindedInput ∧
        ∃ d0, deps[j]? = some d0 ∧ matchDependency E d0 inp = true := by
  constructor
  · rintro ⟨hb, d, hd, hm⟩
    obtain ⟨d0, hd0, hsig⟩ := entry_stateAt hk hd
    exact ⟨hb, d0, hd0, by rw [matchDependency_of_sig hsig]; exact hm⟩
  · rintro ⟨hb, d0, hd0, hm⟩
    obtain ⟨d, hd, hsig⟩ := @entry_stateAt_of_init E inputs deps p k hk j d0 hd0
    exact ⟨hb, d, hd, by rw [matchDependency_of_sig hsig]; exact hm⟩

/-- When a position is the greatest eligible one for input `i`, round `i` appends the
binding of input `i` to that position. -/
theorem emittedAt_of_eligible {E : Env} {inputs : List RType} {deps : List Dependency}
    {p : Int} {i : Nat} (hi : i < inputs.length) {j : Nat}
    (hel : eligible E (stateAt E inputs deps p i) inputs[i] j)
    (hmax : ∀ j2, eligible E (stateAt E inputs deps p i) inputs[i] j2 → j2 ≤ j) :
    emittedAt E inputs deps p i =
      [{ Dependency := some (.pool j), Input := some (newInput inputs[i] i none) }] := by
  rw [emittedAt_eq hi]
  exact emitted_matched (scan_some_iff.mpr ⟨hel, hmax⟩)

theorem exists_greatest_eligible {E : Env} {s : State} {inp : RType}
    (h : ∃ j, eligible E s inp j) :
    ∃ j, eligible E s inp j ∧ ∀ j2, eligible E s inp j2 → j2 ≤ j := by
  cases hs : scanDeps E inp s.deps s.bindedInput s.deps.length with
  | none =>
    obtain ⟨j, hj⟩ := h
    exact absurd hj (scan_none_iff.mp hs j)
  | some j => exact ⟨j, scan_some_iff.mp hs⟩

/-! ## C2: implicit entries are single-use, explicit entries are reusable -/

theorem eligible_initState_iff (E : Env) (deps : List Dependency) (p : Int) (t : RType)
    (j : Nat) :
    eligible E (initState deps p) t j ↔ ∃ d, deps[j]? = some d ∧ matchDependency E d t = true := by
  simp [eligible, initState]

/-- C2: in the result of one `getBindingsFor` call (1) an implicit pool entry is the
`Dependency` of at most one binding; (2) an explicit pool entry whose `DestType` is the
type of input `i` is the dependency of the binding of input `i` whenever no
later-registered position is eligible for that input; (3) there are an input list and a
pool in which one explicit entry is the dependency of two bindings; (4) a second call,
run on the pool as the first call left it, starts with no entry consumed: a position is
eligible for its first input exactly when the entry registered there matches. -/
theorem implicit_once_explicit_reused (E : Env) (inputs : List RType) (deps : List Dependency)
    (p : Int) :
    (∀ j d0, deps[j]? = some d0 → d0.Explicit = false →
      poolUses (getBindingsFor E inputs deps p).1 j ≤ 1) ∧
    (∀ i (hi : i < inputs.length) j d0, deps[j]? = some d0 → d0.Explicit = true →
      d0.DestType = some inputs[i] →
      (∀ j2, j < j2 → ¬ eligible E (stateAt E inputs deps p i) inputs[i] j2) →
      bindingsOfInput (getBindingsFor E inputs deps p).1 i =
        [{ Dependency := some (.pool j), Input := some (newInput inputs[i] i none) }]) ∧
    (∃ (ins : List RType) (ds : List Dependency) (q : Int) (j : Nat) (d : Dependency),
      ds[j]? = some d ∧ d.Explicit = true ∧ 2 ≤ poolUses (getBindingsFor E ins ds q).1 j) ∧
    (∀ (inputs2 : List RType) (p2 : Int) (t : RType) (j : Nat),
      (stateAt E inputs2 (getBindingsFor E inputs deps p).2 p2 0).bindedInput = [] ∧
      (eligible E (stateAt E inputs2 (getBindingsFor E inputs deps p).2 p2 0) t j ↔
        ∃ d0, deps[j]? = some d0 ∧ matchDependency E d0 t = true)) := by
  refine ⟨?_, ?_, ?_, ?_⟩
  · intro j d0 hd0 he
    rw [getBindingsFor_eq]
    exact ((consumed_stateAt E inputs deps p inputs.length (Nat.le_refl _)).2 j d0 hd0 he).1
  · intro i hi j d0 hd0 he ht hlater
    rw [bindingsOfInput_getBindingsFor E inputs deps p hi]
    have hk : i ≤ inputs.length := Nat.le_of_lt hi
    have hel : eligible E (stateAt E inputs deps p i) inputs[i] j := by
      rw [eligible_stateAt_iff hk]
      refine ⟨?_, d0, hd0, ?_⟩
      · intro hmem
        obtain ⟨d1, hd1, he1⟩ := (consumed_stateAt E inputs deps p i hk).1 j hmem
        rw [hd0] at hd1
        cases hd1
        rw [he] at he1
        exact Bool.noConfusion he1
      · simp [matchDependency, he, ht]
    apply emittedAt_of_eligible hi hel
    intro j2 hj2
    by_contra hgt
    exact hlater j2 (by omega) hj2
  · refine ⟨[.int, .int],
      [explicitDep 0 .int], 0, 0, _, rfl, rfl, ?_⟩
    cases h : E.ParamResolvers .int <;>
      simp [getBindingsFor, runBindingsFor, loopInputs, bindInput, scanDeps, matchDependency,
        canBePathParameter, initState, h, poolUses, wrapParam, List.countP_cons, explicitDep]
  · intro inputs2 p2 t j
    rw [stateAt_zero]
    refine ⟨rfl, ?_⟩
    rw [eligible_initState_iff, getBindingsFor_eq]
    constructor
    · rintro ⟨d, hd, hm⟩
      obtain ⟨d0, hd0, hsig⟩ := entry_stateAt (Nat.le_refl _) hd
      exact ⟨d0, hd0, by rw [matchDependency_of_sig hsig]; exact hm⟩
    · rintro ⟨d0, hd0, hm⟩
      obtain ⟨d, hd, hsig⟩ :=
        @entry_stateAt_of_init E inputs deps p inputs.length (Nat.le_refl _) j d0 hd0
      exact ⟨d, hd, by rw [matchDependency_of_sig hsig]; exact hm⟩

/-! ## C3: the most recently registered eligible entry wins -/

/-- C3: if some pool position is eligible for input `i` (not consumed by an earlier input
and matching the input's type), then the binding of input `i` in the result of
`getBindingsFor` uses the eligible position with the greatest index; in particular of
two eligible positions the earlier one is not the one chosen. -/
theorem last_registered_wins (E : Env) (inputs : List RType) (deps : List Dependency) (p : Int)
    (i : Nat) (hi : i < inputs.length)
    (hex : ∃ j, eligible E (stateAt E inputs deps p i) inputs[i] j) :
    ∃ j, eligible E (stateAt E inputs deps p i) inputs[i] j ∧
      (∀ j2, eligible E (stateAt E inputs deps p i) inputs[i] j2 → j2 ≤ j) ∧
      (∀ j1 j2, j1 < j2 → eligible E (stateAt E inputs deps p i) inputs[i] j1 →
        eligible E (stateAt E inputs deps p i) inputs[i] j2 → j ≠ j1) ∧
      bindingsOfInput (getBindingsFor E inputs deps p).1 i =
        [{ Dependency := some (.pool j), Input := some (newInput inputs[i] i none) }] := by
  obtain ⟨j, hel, hmax⟩ := exists_greatest_eligible hex
  refine ⟨j, hel, hmax, ?_, ?_⟩
  · intro j1 j2 hlt _ h2 hj
    have := hmax j2 h2
    omega
  · rw [bindingsOfInput_getBindingsFor E inputs deps p hi]
    exact emittedAt_of_eligible hi hel hmax

/-- Witness of `last_registered_wins`: two implicit `Logger` providers and one `Logger`
input. -/
theorem last_registered_wins_witness :
    (0 < [RType.iface "Logger"].length ∧
      ∃ j, eligible sampleEnv (stateAt sampleEnv [.iface "Logger"] twoLoggers 0 0)
        (.iface "Logger") j) ∧
    ∃ j, eligible sampleEnv (stateAt sampleEnv [.iface "Logger"] twoLoggers 0 0)
        (.iface "Logger") j ∧
      (∀ j2, eligible sampleEnv (stateAt sampleEnv [.iface "Logger"] twoLoggers 0 0)
        (.iface "Logger") j2 → j2 ≤ j) ∧
      (∀ j1 j2, j1 < j2 →
        eligible sampleEnv (stateAt sampleEnv [.iface "Logger"] twoLoggers 0 0)
          (.iface "Logger") j1 →
        eligible sampleEnv (stateAt sampleEnv [.iface "Logger"] twoLoggers 0 0)
          (.iface "Logger") j2 → j ≠ j1) ∧
      bindingsOfInput (getBindingsFor sampleEnv [.iface "Logger"] twoLoggers 0).1 0 =
        [{ Dependency := some (.pool j),
           Input := some (newInput (.iface "Logger") (0 : Nat) none) }] :=
  ⟨⟨by decide, 1, by decide, _, rfl, by decide⟩,
    last_registered_wins sampleEnv [.iface "Logger"] twoLoggers 0 0 (by decide)
      ⟨1, by decide, _, rfl, by decide⟩⟩

/-! ## C4: path-parameter slots -/

theorem wrapInt_of_isInt64 {x : Int} (h : isInt64 x) : wrapInt x = x := by
  unfold isInt64 at h
  unfold wrapInt
  norm_num at h ⊢
  omega

theorem wrapInt_succ (x : Int) : wrapInt (wrapInt x + 1) = wrapInt (x + 1) := by
  unfold wrapInt
  norm_num
  omega

theorem wrapInt_add_ne {p : Int} {a b : Nat} (hab : a < b) (hb : (b : Int) < 2 ^ 64) :
    wrapInt (p + a) ≠ wrapInt (p + b) := by
  unfold wrapInt
  norm_num at hb ⊢
  omega

theorem lastParamIndex_bindInput (E : Env) (p : Int) (i : Nat) (inp : RType) (s : State) :
    (bindInput E p i inp s).lastParamIndex =
      if canBePathParameter E p inp then wrapInt (s.lastParamIndex + 1) else s.lastParamIndex := by
  rcases bindInput_cases E p i inp s with ⟨j, d, _, _, h⟩ | ⟨_, hc, h⟩ | ⟨_, hc, _, h⟩ | ⟨_, hc, _, h⟩ <;>
    rw [h] <;> simp [hc]

theorem canBePathParameter_eq {E : Env} {p : Int} (hne : p ≠ -1) (inp : RType) :
    canBePathParameter E p inp = E.ParamResolvers inp := by
  simp [canBePathParameter, hne]

theorem countP_take_succ (f : RType → Bool) (inputs : List RType) {k : Nat}
    (hk : k < inputs.length) :
    (inputs.take (k + 1)).countP f = (inputs.take k).countP f + (if f inputs[k] then 1 else 0) := by
  rw [List.take_succ, List.getElem?_eq_getElem hk]
  simp only [Option.toList_some, List.countP_append, List.countP_cons, List.countP_nil,
    Nat.zero_add]

theorem countP_take_le (f : RType → Bool) (inputs : List RType) (k : Nat) :
    (inputs.take k).countP f ≤ k := by
  have h1 := List.countP_le_length f (l := inputs.take k)
  have h2 : (inputs.take k).length ≤ k := by simp
  omega

theorem countP_take_mono (f : RType → Bool) (inputs : List RType) {a b : Nat} (hab : a ≤ b) :
    (inputs.take a).countP f ≤ (inputs.take b).countP f := by
  apply List.Sublist.countP_le
  exact List.take_sublist_take_left inputs hab

/-- The slot counter before input `k`: the start index advanced once per earlier
path-parameter-capable input. -/
theorem lastParamIndex_stateAt (E : Env) (inputs : List RType) (deps : List Dependency)
    {p : Int} (hp : isInt64 p) (hne : p ≠ -1) :
    ∀ k, k ≤ inputs.length →
      (stateAt E inputs deps p k).lastParamIndex =
        wrapInt (p + ((inputs.take k).countP E.ParamResolvers : Nat)) := by
  intro k
  induction k with
  | zero =>
    intro _
    rw [stateAt_zero]
    simp [initState, wrapInt_of_isInt64 hp]
  | succ k ih =>
    intro hk
    rw [stateAt_succ E inputs deps p hk, lastParamIndex_bindInput, ih (Nat.le_of_lt hk),
      canBePathParameter_eq hne, countP_take_succ _ _ hk]
    cases hc : E.ParamResolvers inputs[k] with
    | true =>
      simp only [if_true]
      rw [wrapInt_succ]
      congr 1
      push_cast
      ring
    | false => simp

theorem deps_bindInput_matched {E : Env} {p : Int} {i : Nat} {inp : RType} {s : State} {j : Nat}
    {d : Dependency} (hs : scanDeps E inp s.deps s.bindedInput s.deps.length = some j)
    (hd : s.deps[j]? = some d) (hc : canBePathParameter E p inp = true) :
    (bindInput E p i inp s).deps[j]? = some (wrapParam s.lastParamIndex d) := by
  rw [bindInput_matched hs hd]
  have hlt : j < s.deps.length := (List.getElem?_eq_some_iff.mp hd).1
  simp [hc, List.getElem?_set, hlt]

/-- C4: with `paramStartIndex` other than `-1`, let input `i` be path-parameter-capable and
let `k` be the number of path-parameter-capable inputs before it.  Its slot is
`paramStartIndex + k` in Go `int` arithmetic (the plain sum whenever that fits 64 bits):
either the input was matched to a pool entry, whose handler becomes, in the round of
input `i`, the wrap at that slot of the handler it had before, or the binding of input
`i` is the synthesized path-parameter binding at that slot.  Distinct
path-parameter-capable inputs have distinct slots (for any input list shorter than
`2 ^ 64`), and the slot depends only on the number of capable inputs before `i`. -/
theorem path_parameter_slots (E : Env) (inputs : List RType) (deps : List Dependency) (p : Int)
    (hp : isInt64 p) (hne : p ≠ -1) (i : Nat) (hi : i < inputs.length)
    (hcap : E.ParamResolvers inputs[i] = true) :
    (p + ((inputs.take i).countP E.ParamResolvers : Nat) < 2 ^ 63 →
      wrapInt (p + ((inputs.take i).countP E.ParamResolvers : Nat)) =
        p + ((inputs.take i).countP E.ParamResolvers : Nat)) ∧
    ((∃ j d, (stateAt E inputs deps p i).deps[j]? = some d ∧
        bindingsOfInput (getBindingsFor E inputs deps p).1 i =
          [{ Dependency := some (.pool j), Input := some (newInput inputs[i] i none) }] ∧
        (stateAt E inputs deps p (i + 1)).deps[j]? =
          some (wrapParam (wrapInt (p + ((inputs.take i).countP E.ParamResolvers : Nat))) d)) ∨
      bindingsOfInput (getBindingsFor E inputs deps p).1 i =
        [paramBinding i (wrapInt (p + ((inputs.take i).countP E.ParamResolvers : Nat)))
          inputs[i]]) ∧
    (∀ i2 (hi2 : i2 < inputs.length), E.ParamResolvers inputs[i2] = true → i2 ≠ i →
      (inputs.length : Int) < 2 ^ 64 →
      wrapInt (p + ((inputs.take i2).countP E.ParamResolvers : Nat)) ≠
        wrapInt (p + ((inputs.take i).countP E.ParamResolvers : Nat))) := by
  have hk : i ≤ inputs.length := Nat.le_of_lt hi
  have hlast := lastParamIndex_stateAt E inputs deps hp hne i hk
  have hc : canBePathParameter E p inputs[i] = true := by
    rw [canBePathParameter_eq hne]; exact hcap
  refine ⟨?_, ?_, ?_⟩
  · intro hlt
    apply wrapInt_of_isInt64
    unfold isInt64 at hp ⊢
    constructor
    · have : (0 : Int) ≤ ((inputs.take i).countP E.ParamResolvers : Nat) := Int.natCast_nonneg _
      omega
    · exact hlt
  · rw [bindingsOfInput_getBindingsFor E inputs deps p hi, emittedAt_eq hi,
      stateAt_succ E inputs deps p hi, ← hlast]
    cases hs : scanDeps E inputs[i] (stateAt E inputs deps p i).deps
        (stateAt E inputs deps p i).bindedInput (stateAt E inputs deps p i).deps.length with
    | some j =>
      obtain ⟨_, _, ⟨d, hd, _⟩, _⟩ := scanDeps_some hs
      exact Or.inl ⟨j, d, hd, emitted_matched hs, deps_bindInput_matched hs hd hc⟩
    | none => exact Or.inr (emitted_param hs hc)
  · intro i2 hi2 hcap2 hne2 hlen
    have hlen2 : ∀ a, a ≤ inputs.length → (((inputs.take a).countP E.ParamResolvers : Nat) : Int) < 2 ^ 64 := by
      intro a ha
      have := countP_take_le E.ParamResolvers inputs a
      have h3 : (((inputs.take a).countP E.ParamResolvers : Nat) : Int) ≤ (inputs.length : Int) := by
        exact_mod_cast (Nat.le_trans this ha)
      omega
    rcases Nat.lt_or_gt_of_ne hne2 with hlt | hgt
    · have h1 := countP_take_succ E.ParamResolvers inputs hi2
      rw [hcap2] at h1
      simp only [if_true] at h1
      have h2 := countP_take_mono E.ParamResolvers inputs (show i2 + 1 ≤ i by omega)
      exact wrapInt_add_ne (by omega) (hlen2 i hk)
    · have h1 := countP_take_succ E.ParamResolvers inputs hi
      rw [hcap] at h1
      simp only [if_true] at h1
      have h2 := countP_take_mono E.ParamResolvers inputs (show i + 1 ≤ i2 by omega)
      exact (wrapInt_add_ne (by omega) (hlen2 i2 (Nat.le_of_lt hi2))).symm
/-- Witness of `path_parameter_slots`: in `f(id int, log Logger, name string)` over the
sample pool with `paramStartIndex = 0`, the input `name` is the second capable input; it
is matched to the explicit `string` provider, which is wrapped at slot `1`. -/
theorem path_parameter_slots_witness :
    (isInt64 0 ∧ (0 : Int) ≠ -1 ∧ 2 < sampleInputs.length ∧
      sampleEnv.ParamResolvers .string = true) ∧
    (stateAt sampleEnv sampleInputs samplePool 0 3).deps[1]? =
      some (wrapParam 1 (explicitDep 1 .string)) ∧
    bindingsOfInput (getBindingsFor sampleEnv sampleInputs samplePool 0).1 2 =
      [{ Dependency := some (.pool 1), Input := some (newInput .string 2 none) }] ∧
    ((0 : Int) + ((sampleInputs.take 2).countP sampleEnv.ParamResolvers : Nat) < 2 ^ 63 →
      wrapInt (0 + ((sampleInputs.take 2).countP sampleEnv.ParamResolvers : Nat)) =
        0 + ((sampleInputs.take 2).countP sampleEnv.ParamResolvers : Nat)) :=
  ⟨by decide, by decide, by decide,
    (path_parameter_slots sampleEnv sampleInputs samplePool 0 (by decide) (by decide) 2
      (by decide) (by decide)).1⟩

/-! ## C5: what the wrap does to the pool, and what it leaves alone -/

theorem matchedToPathInput_append (E : Env) (p : Int) (bs : List Binding) (b : Binding)
    (j : Nat) :
    matchedToPathInput E p (bs ++ [b]) j ↔
      matchedToPathInput E p bs j ∨
        (b.Dependency = some (DepPtr.pool j) ∧
          ∃ inp, b.Input = some inp ∧ canBePathParameter E p inp.Typ = true) := by
  unfold matchedToPathInput
  constructor
  · rintro ⟨b1, hb1, h⟩
    rcases List.mem_append.mp hb1 with h1 | h1
    · exact Or.inl ⟨b1, h1, h⟩
    · simp only [List.mem_singleton] at h1
      subst h1
      exact Or.inr h
  · rintro (⟨b1, hb1, h⟩ | h)
    · exact ⟨b1, List.mem_append_left _ hb1, h⟩
    · exact ⟨b, by simp, h⟩

/-- Along the loop: an entry matched to a path-parameter-capable input is non-static with
its value cleared, any other entry is the one registered. -/
theorem pool_stateAt (E : Env) (inputs : List RType) (deps : List Dependency) (p : Int) :
    ∀ k, k ≤ inputs.length → ∀ j,
      (matchedToPathInput E p (stateAt E inputs deps p k).bindings j →
        ∃ d, (stateAt E inputs deps p k).deps[j]? = some d ∧ d.Static = false ∧
          d.OriginalValue = none) ∧
      (¬ matchedToPathInput E p (stateAt E inputs deps p k).bindings j →
        (stateAt E inputs deps p k).deps[j]? = deps[j]?) := by
  apply stateAt_induction (fun _ s => ∀ j,
      (matchedToPathInput E p s.bindings j →
        ∃ d, s.deps[j]? = some d ∧ d.Static = false ∧ d.OriginalValue = none) ∧
      (¬ matchedToPathInput E p s.bindings j → s.deps[j]? = deps[j]?))
  · intro j
    refine ⟨?_, fun _ => rfl⟩
    rintro ⟨b, hb, _⟩
    simp [initState] at hb
  · intro k hk ih j
    obtain ⟨ih1, ih2⟩ := ih j
    rcases bindInput_cases E p k inputs[k] (stateAt E inputs deps p k) with
      ⟨j0, d, hs, hd, h⟩ | ⟨_, _, h⟩ | ⟨_, _, _, h⟩ | ⟨_, _, _, h⟩
    · rw [h]
      simp only
      rw [matchedToPathInput_append]
      have hlt : j0 < (stateAt E inputs deps p k).deps.length :=
        (List.getElem?_eq_some_iff.mp hd).1
      cases hc : canBePathParameter E p inputs[k] with
      | true =>
        simp only [if_true]
        by_cases hj : j0 = j
        · subst hj
          refine ⟨fun _ => ⟨wrapParam (stateAt E inputs deps p k).lastParamIndex d,
            by simp [List.getElem?_set, hlt], rfl, rfl⟩, ?_⟩
          intro hnot
          exact absurd (Or.inr ⟨rfl, _, rfl, by simpa [newInput] using hc⟩) hnot
        · have hset : ((stateAt E inputs deps p k).deps.set j0
              (wrapParam (stateAt E inputs deps p k).lastParamIndex d))[j]? =
              (stateAt E inputs deps p k).deps[j]? := by
            simp [List.getElem?_set, hj]
          rw [hset]
          constructor
          · rintro (hw | ⟨hdep, _⟩)
            · exact ih1 hw
            · simp only [Option.some.injEq, DepPtr.pool.injEq] at hdep
              exact absurd hdep hj
          · intro hnot
            exact ih2 (fun hw => hnot (Or.inl hw))
      | false =>
        simp only [Bool.false_eq_true, if_false]
        constructor
        · rintro (hw | ⟨_, inp, hinp, hcap⟩)
          · exact ih1 hw
          · simp only [Option.some.injEq] at hinp
            subst hinp
            simp only [newInput] at hcap
            rw [hc] at hcap
            exact Bool.noConfusion hcap
        · intro hnot
          exact ih2 (fun hw => hnot (Or.inl hw))
    · rw [h]
      simp only
      rw [matchedToPathInput_append]
      constructor
      · rintro (hw | ⟨hdep, _⟩)
        · exact ih1 hw
        · simp [paramBinding] at hdep
      · intro hnot
        exact ih2 (fun hw => hnot (Or.inl hw))
    · rw [h]
      simp only
      rw [matchedToPathInput_append]
      constructor
      · rintro (hw | ⟨hdep, _⟩)
        · exact ih1 hw
        · simp [payloadBinding] at hdep
      · intro hnot
        exact ih2 (fun hw => hnot (Or.inl hw))
    · rw [h]
      exact ⟨ih1, ih2⟩

/-- C5: when `getBindingsFor` returns, every pool entry that was matched to a
path-parameter-capable input (fallback enabled) has `Static = false` and a cleared
`OriginalValue`, whatever they were before; every pool entry that was matched to no such
input is the registered entry unchanged (`Handle`, `Static`, `OriginalValue`, `DestType`,
`Explicit`); and every entry keeps its `DestType` and `Explicit`. -/
theorem wrap_resets_static_frame (E : Env) (inputs : List RType) (deps : List Dependency)
    (p : Int) (j : Nat) :
    (matchedToPathInput E p (getBindingsFor E inputs deps p).1 j →
      ∃ d, (getBindingsFor E inputs deps p).2[j]? = some d ∧ d.Static = false ∧
        d.OriginalValue = none) ∧
    (¬ matchedToPathInput E p (getBindingsFor E inputs deps p).1 j →
      (getBindingsFor E inputs deps p).2[j]? = deps[j]?) ∧
    ((getBindingsFor E inputs deps p).2.length = deps.length ∧
      ∀ d, (getBindingsFor E inputs deps p).2[j]? = some d →
        ∃ d0, deps[j]? = some d0 ∧ d0.DestType = d.DestType ∧ d0.Explicit = d.Explicit) := by
  rw [getBindingsFor_eq]
  obtain ⟨h1, h2⟩ := pool_stateAt E inputs deps p inputs.length (Nat.le_refl _) j
  refine ⟨h1, h2, length_deps_stateAt (Nat.le_refl _), ?_⟩
  intro d hd
  obtain ⟨d0, hd0, hsig⟩ := entry_stateAt (Nat.le_refl _) hd
  exact ⟨d0, hd0, congrArg Prod.snd hsig, congrArg Prod.fst hsig⟩

/-! ## C6: `paramStartIndex = -1` switches the path-parameter route off -/

theorem canBePathParameter_neg_one (E : Env) (inp : RType) :
    canBePathParameter E (-1) inp = false := by
  simp [canBePathParameter]

theorem deps_stateAt_neg_one (E : Env) (inputs : List RType) (deps : List Dependency) :
    ∀ k, k ≤ inputs.length → (stateAt E inputs deps (-1) k).deps = deps := by
  apply stateAt_induction (fun _ s => s.deps = deps)
  · rfl
  · intro k hk ih
    rcases bindInput_cases E (-1) k inputs[k] (stateAt E inputs deps (-1) k) with
      ⟨j0, d, _, _, h⟩ | ⟨_, hc, _⟩ | ⟨_, _, _, h⟩ | ⟨_, _, _, h⟩
    · rw [h]
      simp only [canBePathParameter_neg_one, Bool.false_eq_true, if_false]
      exact ih
    · rw [canBePathParameter_neg_one] at hc
      exact Bool.noConfusion hc
    · rw [h]; exact ih
    · rw [h]; exact ih

/-- C6: with `paramStartIndex = -1`, for every input list and pool, `getBindingsFor` leaves
the pool as it was (every `Handle`, `Static`, `OriginalValue` unchanged), and every
binding it returns is, for some input `i`, either the binding of that input to an
(unmodified) pool entry or the payload binding of that input; no returned binding is a
synthesized path-parameter binding, whatever `context.ParamResolvers` holds. -/
theorem fallback_disabled (E : Env) (inputs : List RType) (deps : List Dependency) :
    (getBindingsFor E inputs deps (-1)).2 = deps ∧
    (∀ b, b ∈ (getBindingsFor E inputs deps (-1)).1 →
      ∃ i, ∃ hi : i < inputs.length,
        (∃ j d, deps[j]? = some d ∧ (getBindingsFor E inputs deps (-1)).2[j]? = some d ∧
          b = { Dependency := some (.pool j), Input := some (newInput inputs[i] i none) }) ∨
        b = payloadBinding i inputs[i]) ∧
    (∀ b, b ∈ (getBindingsFor E inputs deps (-1)).1 →
      ∀ (i q : Int) (t : RType), b ≠ paramBinding i q t) := by
  have hdeps : (getBindingsFor E inputs deps (-1)).2 = deps := by
    rw [getBindingsFor_eq]
    exact deps_stateAt_neg_one E inputs deps inputs.length (Nat.le_refl _)
  have hmem : ∀ b, b ∈ (getBindingsFor E inputs deps (-1)).1 →
      ∃ i, ∃ hi : i < inputs.length,
        (∃ j d, deps[j]? = some d ∧
          b = { Dependency := some (.pool j), Input := some (newInput inputs[i] i none) }) ∨
        b = payloadBinding i inputs[i] := by
    intro b hb
    obtain ⟨i, hi, hbi⟩ := mem_getBindingsFor.mp hb
    refine ⟨i, hi, ?_⟩
    rw [emittedAt_eq hi] at hbi
    cases hs : scanDeps E inputs[i] (stateAt E inputs deps (-1) i).deps
        (stateAt E inputs deps (-1) i).bindedInput (stateAt E inputs deps (-1) i).deps.length with
    | some j =>
      rw [emitted_matched hs] at hbi
      obtain ⟨_, _, ⟨d, hd, _⟩, _⟩ := scanDeps_some hs
      rw [deps_stateAt_neg_one E inputs deps i (Nat.le_of_lt hi)] at hd
      exact Or.inl ⟨j, d, hd, List.mem_singleton.mp hbi⟩
    | none =>
      by_cases hk : (indirectType inputs[i]).Kind = Kind.Struct
      · rw [emitted_payload hs (canBePathParameter_neg_one E _) hk] at hbi
        exact Or.inr (List.mem_singleton.mp hbi)
      · rw [emitted_skip hs (canBePathParameter_neg_one E _) hk] at hbi
        simp at hbi
  refine ⟨hdeps, ?_, ?_⟩
  · intro b hb
    obtain ⟨i, hi, h⟩ := hmem b hb
    refine ⟨i, hi, ?_⟩
    rcases h with ⟨j, d, hd, hbe⟩ | h
    · exact Or.inl ⟨j, d, hd, by rw [hdeps]; exact hd, hbe⟩
    · exact Or.inr h
  · intro b hb i q t hbe
    obtain ⟨i2, hi2, h⟩ := hmem b hb
    rcases h with ⟨j, d, _, h⟩ | h
    · rw [h] at hbe
      simp [paramBinding] at hbe
    · rw [h] at hbe
      simp [paramBinding, payloadBinding] at hbe

/-! ## C8: `matchDependency` -/

/-- C8: `matchDependency(dep, t)` holds exactly when `dep` is explicit and its `DestType` is
`t` itself, or `dep` is implicit and its `DestType` is unset or `equalTypes(DestType, t)`
holds.  In particular an explicit dependency does not match a type other than its
`DestType`, whatever `equalTypes` says of the two, and an implicit dependency with unset
`DestType` matches every type. -/
theorem matchDependency_iff (E : Env) (dep : Dependency) (t : RType) :
    (matchDependency E dep t = true ↔
      (dep.Explicit = true ∧ dep.DestType = some t) ∨
      (dep.Explicit = false ∧
        (dep.DestType = none ∨ ∃ dt, dep.DestType = some dt ∧ E.equalTypes dt t = true))) ∧
    (dep.Explicit = true → dep.DestType ≠ some t → matchDependency E dep t = false) ∧
    (dep.Explicit = false → dep.DestType = none → matchDependency E dep t = true) := by
  refine ⟨?_, ?_, ?_⟩
  · cases he : dep.Explicit with
    | true => simp [matchDependency, he]
    | false =>
      cases hd : dep.DestType with
      | none => simp [matchDependency, he, hd]
      | some dt => simp [matchDependency, he, hd]
  · intro he hne
    simp [matchDependency, he, hne]
  · intro he hd
    simp [matchDependency, he, hd]

/-! ## C7: inputs that no pool entry matches -/

/-- C7: let input `i` be an input of `getBindingsFor`.  When no pool position is eligible
for it: if it is path-parameter-capable (and `paramStartIndex` is not `-1`), its binding
is the synthesized path-parameter binding: a fresh dependency with the input type as
`DestType` whose handler is `paramDependencyHandler` of the next slot (a handler that
reads that slot of the store and nothing else), for the input `(i, inputs[i])`;
otherwise, if its pointer-stripped type is a struct, its binding is the synthesized
payload binding: a fresh dependency without `DestType` whose handler is the payload
handler, for the input `(i, inputs[i])`; otherwise it has no binding.  Hence input `i`
has no binding in the result if and only if no position is eligible, it is not
path-parameter-capable (or the fallback is off) and its pointer-stripped type is not a
struct.  Scenario: `f(id int, body UserPayload)` with one `Logger` dependency and
`paramStartIndex = 0` yields two bindings, the path-parameter binding of input 0 at
slot 0 and the payload binding of input 1. -/
theorem unmatched_input_fallbacks (E : Env) (inputs : List RType) (deps : List Dependency)
    (p : Int) (i : Nat) (hi : i < inputs.length) :
    ((∀ j, ¬ eligible E (stateAt E inputs deps p i) inputs[i] j) →
      canBePathParameter E p inputs[i] = true →
      bindingsOfInput (getBindingsFor E inputs deps p).1 i =
        [{ Dependency := some (.fresh
            { Handle := .param (stateAt E inputs deps p i).lastParamIndex,
              OriginalValue := none, DestType := some inputs[i], Explicit := false,
              Static := false })
           Input := some { Index := (i : Int), StructFieldIndex := none, Typ := inputs[i] } }] ∧
      bindingsOfInput (getBindingsFor E inputs deps p).1 i =
        [paramBinding i (stateAt E inputs deps p i).lastParamIndex inputs[i]] ∧
      ∀ (R : Runtime) (ctx : Ctx) (input : Input),
        Handler.run R (.param (stateAt E inputs deps p i).lastParamIndex) ctx input =
          paramDependencyHandler (stateAt E inputs deps p i).lastParamIndex ctx) ∧
    ((∀ j, ¬ eligible E (stateAt E inputs deps p i) inputs[i] j) →
      canBePathParameter E p inputs[i] = false →
      (indirectType inputs[i]).Kind = Kind.Struct →
      bindingsOfInput (getBindingsFor E inputs deps p).1 i =
        [{ Dependency := some (.fresh
            { Handle := .payload, OriginalValue := none, DestType := none,
              Explicit := false, Static := false })
           Input := some { Index := (i : Int), StructFieldIndex := none, Typ := inputs[i] } }] ∧
      bindingsOfInput (getBindingsFor E inputs deps p).1 i = [payloadBinding i inputs[i]] ∧
      ∀ (R : Runtime) (ctx : Ctx) (input : Input),
        Handler.run R .payload ctx input = .ok (payloadHandle R ctx input)) ∧
    (bindingsOfInput (getBindingsFor E inputs deps p).1 i = [] ↔
      (∀ j, ¬ eligible E (stateAt E inputs deps p i) inputs[i] j) ∧
      canBePathParameter E p inputs[i] = false ∧
      (indirectType inputs[i]).Kind ≠ Kind.Struct) ∧
    (getBindingsFor sampleEnv [.int, .struct "UserPayload"]
        [implicitDep 0 (.iface "Logger")] 0).1 =
      [{ Dependency := some (.fresh
          { Handle := .param 0, OriginalValue := none, DestType := some .int,
            Explicit := false, Static := false })
         Input := some { Index := 0, StructFieldIndex := none, Typ := .int } },
       { Dependency := some (.fresh
          { Handle := .payload, OriginalValue := none, DestType := none,
            Explicit := false, Static := false })
         Input := some { Index := 1, StructFieldIndex := none,
                         Typ := .struct "UserPayload" } }] := by
  rw [bindingsOfInput_getBindingsFor E inputs deps p hi, emittedAt_eq hi]
  refine ⟨?_, ?_, ?_, by decide⟩
  · intro hno hc
    have hs := scan_none_iff.mpr hno
    exact ⟨emitted_param hs hc, emitted_param hs hc, fun _ _ _ => rfl⟩
  · intro hno hc hk
    have hs := scan_none_iff.mpr hno
    exact ⟨emitted_payload hs hc hk, emitted_payload hs hc hk, fun _ _ _ => rfl⟩
  · constructor
    · intro hnil
      cases hs : scanDeps E inputs[i] (stateAt E inputs deps p i).deps
          (stateAt E inputs deps p i).bindedInput (stateAt E inputs deps p i).deps.length with
      | some j =>
        rw [emitted_matched hs] at hnil
        simp at hnil
      | none =>
        refine ⟨scan_none_iff.mp hs, ?_⟩
        cases hc : canBePathParameter E p inputs[i] with
        | true =>
          rw [emitted_param hs hc] at hnil
          simp at hnil
        | false =>
          refine ⟨rfl, ?_⟩
          intro hk
          rw [emitted_payload hs hc hk] at hnil
          simp at hnil
    · rintro ⟨hno, hc, hk⟩
      exact emitted_skip (scan_none_iff.mpr hno) hc hk

/-- Witness of `unmatched_input_fallbacks`: input 1 (`body UserPayload`) of the scenario;
the `Logger` provider does not match it, it is not path-parameter-capable and it is a
struct, so its binding is the payload binding. -/
theorem unmatched_input_fallbacks_witness :
    (1 < [RType.int, RType.struct "UserPayload"].length ∧
      (∀ j, ¬ eligible sampleEnv
        (stateAt sampleEnv [.int, .struct "UserPayload"] [implicitDep 0 (.iface "Logger")] 0 1)
        (.struct "UserPayload") j) ∧
      canBePathParameter sampleEnv 0 (.struct "UserPayload") = false ∧
      (indirectType (.struct "UserPayload")).Kind = Kind.Struct) ∧
    bindingsOfInput (getBindingsFor sampleEnv [.int, .struct "UserPayload"]
        [implicitDep 0 (.iface "Logger")] 0).1 1 =
      [{ Dependency := some (.fresh
          { Handle := .payload, OriginalValue := none, DestType := none,
            Explicit := false, Static := false })
         Input := some { Index := 1, StructFieldIndex := none,
                         Typ := .struct "UserPayload" } }] := by
  have hno : ∀ j, ¬ eligible sampleEnv
      (stateAt sampleEnv [.int, .struct "UserPayload"] [implicitDep 0 (.iface "Logger")] 0 1)
      (.struct "UserPayload") j := by
    rintro j ⟨_, d, hd, hm⟩
    have hdeps : (stateAt sampleEnv [.int, .struct "UserPayload"]
        [implicitDep 0 (.iface "Logger")] 0 1).deps = [implicitDep 0 (.iface "Logger")] := by
      decide
    rw [hdeps] at hd
    cases j with
    | zero =>
      simp only [List.getElem?_cons_zero, Option.some.injEq] at hd
      subst hd
      revert hm
      decide
    | succ n => simp at hd
  exact ⟨⟨by decide, hno, by decide, by decide⟩,
    ((unmatched_input_fallbacks sampleEnv [.int, .struct "UserPayload"]
      [implicitDep 0 (.iface "Logger")] 0 1 (by decide)).2.1 hno (by decide) (by decide)).1⟩

/-! ## C9: the struct binder's short-circuit -/

theorem nonZeroBindings_ok (v : StructValue) :
    ∀ l : List StructField, (∀ f ∈ l, f.Index ≠ []) →
      nonZeroBindings v l = .ok (l.map (prePopulated v)) := by
  intro l
  induction l with
  | nil => intro _; rfl
  | cons f rest ih =>
    intro h
    have hf : f.Index ≠ [] := h f (List.mem_cons_self _ _)
    have hrest := ih (fun g hg => h g (List.mem_cons_of_mem _ hg))
    cases hidx : f.Index with
    | nil => exact absurd hidx hf
    | cons i0 tl =>
      simp [nonZeroBindings, nonZeroBinding, hidx, hrest, prePopulated, newInput]

theorem sortedFields_of_nil (E : Env) (v : StructValue) (sorter : Option (RType → RType → Bool))
    (h : v.fields = []) : sortedFields E v sorter = [] := by
  cases sorter <;> simp [sortedFields, h]

/-- C9: for a struct value (whose non-zero fields have, as reflection guarantees, non-empty
index paths), any pool, `paramStartIndex` and sorter: if the number of non-zero fields is
at least the number of bindings `getBindingsFor` produces for the remaining fields,
`getBindingsForStruct` returns exactly the pre-populated bindings, one per non-zero field
in discovery order, each with the static dependency `NewDependency` builds from the
field's current value and the input (`Type` the field type, `Index` the first element of
the index path, `StructFieldIndex` the index path).  In particular this is the result
when no candidate field remains. -/
theorem struct_short_circuit (E : Env) (v : StructValue) (deps : List Dependency) (p : Int)
    (sorter : Option (RType → RType → Bool))
    (hstruct : (indirectType v.typ).Kind = Kind.Struct)
    (hidx : ∀ f ∈ v.nonZero, f.Index ≠ []) :
    ((getBindingsFor E ((sortedFields E v sorter).map (fun f => f.Typ)) deps p).1.length ≤
        v.nonZero.length →
      getBindingsForStruct E v deps p sorter =
        .ok (v.nonZero.map (prePopulated v),
          (getBindingsFor E ((sortedFields E v sorter).map (fun f => f.Typ)) deps p).2)) ∧
    (v.fields = [] →
      getBindingsForStruct E v deps p sorter = .ok (v.nonZero.map (prePopulated v), deps)) ∧
    (∀ f ∈ v.nonZero, ∃ i0 rest, f.Index = i0 :: rest ∧
      prePopulated v f =
        { Dependency := some (.fresh (NewDependency (v.fieldByIndex f.Index)))
          Input := some { Index := i0, StructFieldIndex := some f.Index, Typ := f.Typ } } ∧
      (NewDependency (v.fieldByIndex f.Index)).Static = true ∧
      (NewDependency (v.fieldByIndex f.Index)).OriginalValue =
        some (v.fieldByIndex f.Index)) := by
  have hshort : (getBindingsFor E ((sortedFields E v sorter).map (fun f => f.Typ)) deps p).1.length ≤
        v.nonZero.length →
      getBindingsForStruct E v deps p sorter =
        .ok (v.nonZero.map (prePopulated v),
          (getBindingsFor E ((sortedFields E v sorter).map (fun f => f.Typ)) deps p).2) := by
    intro hge
    unfold getBindingsForStruct
    simp only [hstruct, bne_self_eq_false, Bool.false_eq_true, if_false,
      nonZeroBindings_ok v v.nonZero hidx]
    simp [hge]
  refine ⟨hshort, ?_, ?_⟩
  · intro hnil
    have h0 : sortedFields E v sorter = [] := sortedFields_of_nil E v sorter hnil
    have h1 := hshort
    rw [h0] at h1
    exact h1 (by simp [getBindingsFor, runBindingsFor, loopInputs, initState])
  · intro f hf
    cases hi : f.Index with
    | nil => exact absurd hi (hidx f hf)
    | cons i0 rest =>
      refine ⟨i0, rest, rfl, ?_, rfl, rfl⟩
      simp [prePopulated, hi]

/-- Witness of `struct_short_circuit`: the struct `{Name: "x", Age: 7}`, both fields of
which are set. -/
theorem struct_short_circuit_witness :
    ((indirectType nameAgeSet.typ).Kind = Kind.Struct ∧
      (∀ f ∈ nameAgeSet.nonZero, f.Index ≠ []) ∧ nameAgeSet.fields = []) ∧
    getBindingsForStruct sampleEnv nameAgeSet [implicitDep 0 .int] 0 none =
      .ok ([{ Dependency := some (.fresh (NewDependency (.str "x")))
              Input := some { Index := 0, StructFieldIndex := some [0], Typ := .string } },
            { Dependency := some (.fresh (NewDependency (.int 7)))
              Input := some { Index := 1, StructFieldIndex := some [1], Typ := .int } }],
        [implicitDep 0 .int]) :=
  ⟨⟨by decide, by decide, by decide⟩,
    (struct_short_circuit sampleEnv nameAgeSet [implicitDep 0 .int] 0 none (by decide)
      (by decide)).2.1 (by decide)⟩

/-! ## C10: a struct with one field set and one field left zero -/

/-- C10: for `struct {Name string; Age int}` instantiated as `{Name: "x", Age: 0}`, an empty
pool, `paramStartIndex = 0` and `int` path-parameter-capable, `getBindingsForStruct`
returns one binding only, the pre-populated binding of `Name`: the matching engine does
produce the path-parameter binding of `Age` (slot 0), but one non-zero field against one
engine binding satisfies `len(nonZero) >= len(exportedBindings)` and the engine result is
dropped.  The claimed result of two bindings (that of `Name`, then the path-parameter
binding of `Age` with the index path `[1]`) is not what the code returns.  Were field
discovery to return every exported field, the result would have three bindings. -/
theorem struct_partly_set_drops_zero_field :
    nameAge.nonZero = [{ Name := "Name", Index := [0], Typ := .string }] ∧
    nameAge.fields = [{ Name := "Age", Index := [1], Typ := .int }] ∧
    (getBindingsFor sampleEnv (nameAge.fields.map (fun f => f.Typ)) [] 0).1 =
      [paramBinding 0 0 .int] ∧
    getBindingsForStruct sampleEnv nameAge [] 0 none =
      .ok ([{ Dependency := some (.fresh (NewDependency (.str "x")))
              Input := some { Index := 0, StructFieldIndex := some [0], Typ := .string } }],
        []) ∧
    getBindingsForStruct sampleEnv nameAge [] 0 none ≠
      .ok ([{ Dependency := some (.fresh (NewDependency (.str "x")))
              Input := some { Index := 0, StructFieldIndex := some [0], Typ := .string } },
            { Dependency := some (.fresh
                { Handle := .param 0, OriginalValue := none, DestType := some .int,
                  Explicit := false, Static := false })
              Input := some { Index := 0, StructFieldIndex := some [1], Typ := .int } }],
        []) ∧
    ((getBindingsForStruct sampleEnv nameAgeAllFields [] 0 none).toOption.map
      (fun r => r.1.length)) = some 3 := by
  refine ⟨by decide, by decide, by decide, by rfl, ?_, by decide⟩
  intro h
  have h2 := congrArg (fun r => r.toOption.map (fun x => x.1.length)) h
  revert h2
  decide

/-! ## C11, C18, C19: `Binding.Equal` -/

theorem deepEqual_iff (a b : Option (List Int)) : deepEqual a b = true ↔ a = b := by
  cases a <;> cases b <;> simp [deepEqual]

theorem equalInputs_some (i1 i2 : Input) :
    equalInputs (some i1) (some i2) = true ↔
      i1.Index = i2.Index ∧ i1.Typ.String = i2.Typ.String ∧
        i1.StructFieldIndex = i2.StructFieldIndex := by
  unfold equalInputs
  simp only [Option.isSome_some, bne_self_eq_false, Bool.false_eq_true, if_false]
  by_cases h1 : i1.Index = i2.Index
  · by_cases h2 : i1.Typ.String = i2.Typ.String
    · by_cases h3 : i1.StructFieldIndex = i2.StructFieldIndex
      · simp [h1, h2, h3, (deepEqual_iff _ _).mpr]
      · have : deepEqual i1.StructFieldIndex i2.StructFieldIndex = false := by
          cases h : deepEqual i1.StructFieldIndex i2.StructFieldIndex
          · rfl
          · exact absurd ((deepEqual_iff _ _).mp h) h3
        simp [h1, h2, h3, this]
    · simp [h1, h2]
  · simp [h1]

/-- With both dependencies present, `Equal` returns, and it returns true exactly when the
renderings of the values, the strings of the `DestType`s and the inputs agree. -/
theorem equal_of_deps (pool : List Dependency) (b o : Binding) (d1 d2 : Dependency)
    (hb : b.dep pool = some d1) (ho : o.dep pool = some d2) :
    ∃ r, Binding.Equal pool (some b) (some o) = .ok r ∧
      (r = true ↔
        sprintV d1.OriginalValue = sprintV d2.OriginalValue ∧
        d1.DestType.map RType.String = d2.DestType.map RType.String ∧
        equalInputs b.Input o.Input = true) := by
  unfold Binding.Equal
  simp only [hb, ho, Option.isSome_some, bne_self_eq_false, Bool.false_eq_true, if_false]
  by_cases h1 : sprintV d1.OriginalValue = sprintV d2.OriginalValue
  · cases hd1 : d1.DestType with
    | none =>
      cases hd2 : d2.DestType with
      | none => simp [h1]
      | some t2 => simp [h1]
    | some t1 =>
      cases hd2 : d2.DestType with
      | none => simp [h1]
      | some t2 =>
        by_cases h2 : t1.String = t2.String
        · simp [h1, h2]
        · simp [h1, h2]
  · exact ⟨false, by simp [h1], by simp [h1]⟩

theorem equal_of_deps_inputs (pool : List Dependency) (b o : Binding) (d1 d2 : Dependency)
    (i1 i2 : Input) (hb : b.dep pool = some d1) (ho : o.dep pool = some d2)
    (hbi : b.Input = some i1) (hoi : o.Input = some i2) :
    ∃ r, Binding.Equal pool (some b) (some o) = .ok r ∧
      (r = true ↔
        sprintV d1.OriginalValue = sprintV d2.OriginalValue ∧
        d1.DestType.map RType.String = d2.DestType.map RType.String ∧
        i1.Index = i2.Index ∧ i1.Typ.String = i2.Typ.String ∧
        i1.StructFieldIndex = i2.StructFieldIndex) := by
  obtain ⟨r, hr, hiff⟩ := equal_of_deps pool b o d1 d2 hb ho
  refine ⟨r, hr, ?_⟩
  rw [hiff, hbi, hoi, equalInputs_some]

/-- C11 (as amended): for two non-nil bindings whose `Dependency` and `Input` are non-nil,
`Equal` is true if and only if the renderings of the two `OriginalValue`s are equal, the
`DestType`s are both absent or both present with equal strings, and the inputs have equal
`Index`, equal `Type` strings and `StructFieldIndex` values that are equal in the sense
of `reflect.DeepEqual`: both nil, or both non-nil with the same elements (a nil path and
an empty non-nil path do not match).  For a nil receiver `Equal(o)` is true iff `o` is
nil; for a non-nil receiver and nil `o` it is false. -/
theorem equal_iff (pool : List Dependency) (b o : Binding) (d1 d2 : Dependency)
    (i1 i2 : Input) (hb : b.dep pool = some d1) (ho : o.dep pool = some d2)
    (hbi : b.Input = some i1) (hoi : o.Input = some i2) :
    (Binding.Equal pool (some b) (some o) = .ok true ↔
      sprintV d1.OriginalValue = sprintV d2.OriginalValue ∧
      d1.DestType.map RType.String = d2.DestType.map RType.String ∧
      i1.Index = i2.Index ∧ i1.Typ.String = i2.Typ.String ∧
      ((i1.StructFieldIndex = none ∧ i2.StructFieldIndex = none) ∨
        ∃ l, i1.StructFieldIndex = some l ∧ i2.StructFieldIndex = some l)) ∧
    (∀ x, Binding.Equal pool none x = .ok true ↔ x = none) ∧
    Binding.Equal pool (some b) none = .ok false := by
  refine ⟨?_, ?_, rfl⟩
  · obtain ⟨r, hr, hiff⟩ := equal_of_deps_inputs pool b o d1 d2 i1 i2 hb ho hbi hoi
    have hpath : i1.StructFieldIndex = i2.StructFieldIndex ↔
        ((i1.StructFieldIndex = none ∧ i2.StructFieldIndex = none) ∨
          ∃ l, i1.StructFieldIndex = some l ∧ i2.StructFieldIndex = some l) := by
      cases h1 : i1.StructFieldIndex <;> cases h2 : i2.StructFieldIndex <;> simp [eq_comm]
    rw [hr, ← hpath, ← hiff]
    constructor
    · intro h; exact Except.ok.inj h
    · intro h; rw [h]
  · intro x
    cases x <;> simp [Binding.Equal]

/-- Witness of `equal_iff`: the path-parameter binding of input 0 compared with itself. -/
theorem equal_iff_witness :
    ((nilPathBinding.dep []).isSome = true ∧ nilPathBinding.Input.isSome = true) ∧
    (Binding.Equal [] (some nilPathBinding) (some nilPathBinding) = .ok true ↔
      sprintV none = sprintV none ∧
      (some RType.int).map RType.String = (some RType.int).map RType.String ∧
      (0 : Int) = 0 ∧ RType.int.String = RType.int.String ∧
      (((none : Option (List Int)) = none ∧ (none : Option (List Int)) = none) ∨
        ∃ l, (none : Option (List Int)) = some l ∧ (none : Option (List Int)) = some l)) :=
  ⟨⟨rfl, rfl⟩, (equal_iff [] nilPathBinding nilPathBinding _ _ _ _ rfl rfl rfl rfl).1⟩

/-- C11 (counterexample): two bindings that differ only in that one `StructFieldIndex` is nil
and the other is empty but non-nil have the same element sequence, so the condition of
the claim holds of them, yet `Equal` returns false. -/
theorem equal_nil_vs_empty_path :
    Binding.Equal [] (some nilPathBinding) (some emptyPathBinding) = .ok false ∧
    (nilPathBinding.dep []).isSome = true ∧ (emptyPathBinding.dep []).isSome = true ∧
    ∃ d1 d2 i1 i2, nilPathBinding.dep [] = some d1 ∧ emptyPathBinding.dep [] = some d2 ∧
      nilPathBinding.Input = some i1 ∧ emptyPathBinding.Input = some i2 ∧
      sprintV d1.OriginalValue = sprintV d2.OriginalValue ∧
      d1.DestType.map RType.String = d2.DestType.map RType.String ∧
      i1.Index = i2.Index ∧ i1.Typ.String = i2.Typ.String ∧
      sliceElems i1.StructFieldIndex = sliceElems i2.StructFieldIndex :=
  ⟨rfl, rfl, rfl, _, _, _, _, rfl, rfl, rfl, rfl, rfl, rfl, rfl, rfl, rfl⟩

/-- C18: on bindings whose `Dependency` and `Input` are present (the type of an input is
always present in the model), `Equal` is an equivalence relation: it returns on every
pair, `a.Equal(a)` is true, `a.Equal(b)` and `b.Equal(a)` agree, and `a.Equal(b)` and
`b.Equal(c)` imply `a.Equal(c)`. -/
theorem equal_equivalence (pool : List Dependency) (a b c : Binding)
    (ha : (a.dep pool).isSome = true) (hb : (b.dep pool).isSome = true)
    (hc : (c.dep pool).isSome = true) (hai : a.Input.isSome = true)
    (hbi : b.Input.isSome = true) (hci : c.Input.isSome = true) :
    Binding.Equal pool (some a) (some a) = .ok true ∧
    (∃ r, Binding.Equal pool (some a) (some b) = .ok r ∧
      Binding.Equal pool (some b) (some a) = .ok r) ∧
    (Binding.Equal pool (some a) (some b) = .ok true →
      Binding.Equal pool (some b) (some c) = .ok true →
      Binding.Equal pool (some a) (some c) = .ok true) := by
  obtain ⟨da, hda⟩ := Option.isSome_iff_exists.mp ha
  obtain ⟨db, hdb⟩ := Option.isSome_iff_exists.mp hb
  obtain ⟨dc, hdc⟩ := Option.isSome_iff_exists.mp hc
  obtain ⟨ia, hia⟩ := Option.isSome_iff_exists.mp hai
  obtain ⟨ib, hib⟩ := Option.isSome_iff_exists.mp hbi
  obtain ⟨ic, hic⟩ := Option.isSome_iff_exists.mp hci
  have key : ∀ (x y : Binding) (dx dy : Dependency) (ix iy : Input),
      x.dep pool = some dx → y.dep pool = some dy → x.Input = some ix → y.Input = some iy →
      (Binding.Equal pool (some x) (some y) = .ok true ↔
        sprintV dx.OriginalValue = sprintV dy.OriginalValue ∧
        dx.DestType.map RType.String = dy.DestType.map RType.String ∧
        ix.Index = iy.Index ∧ ix.Typ.String = iy.Typ.String ∧
        ix.StructFieldIndex = iy.StructFieldIndex) := by
    intro x y dx dy ix iy hx hy hxi hyi
    obtain ⟨r, hr, hiff⟩ := equal_of_deps_inputs pool x y dx dy ix iy hx hy hxi hyi
    rw [hr, ← hiff]
    constructor
    · intro h; exact Except.ok.inj h
    · intro h; rw [h]
  refine ⟨?_, ?_, ?_⟩
  · exact (key a a da da ia ia hda hda hia hia).mpr ⟨rfl, rfl, rfl, rfl, rfl⟩
  · obtain ⟨r1, hr1, _⟩ := equal_of_deps_inputs pool a b da db ia ib hda hdb hia hib
    obtain ⟨r2, hr2, _⟩ := equal_of_deps_inputs pool b a db da ib ia hdb hda hib hia
    have h12 : r1 = r2 := by
      cases r1 <;> cases r2
      · rfl
      · have := (key b a db da ib ia hdb hda hib hia).mp hr2
        obtain ⟨h1, h2, h3, h4, h5⟩ := this
        have h := (key a b da db ia ib hda hdb hia hib).mpr
          ⟨h1.symm, h2.symm, h3.symm, h4.symm, h5.symm⟩
        rw [hr1] at h
        exact absurd (Except.ok.inj h) (by decide)
      · have := (key a b da db ia ib hda hdb hia hib).mp hr1
        obtain ⟨h1, h2, h3, h4, h5⟩ := this
        have h := (key b a db da ib ia hdb hda hib hia).mpr
          ⟨h1.symm, h2.symm, h3.symm, h4.symm, h5.symm⟩
        rw [hr2] at h
        exact absurd (Except.ok.inj h) (by decide)
      · rfl
    exact ⟨r1, hr1, by rw [h12]; exact hr2⟩
  · intro hab hbc
    obtain ⟨h1, h2, h3, h4, h5⟩ := (key a b da db ia ib hda hdb hia hib).mp hab
    obtain ⟨g1, g2, g3, g4, g5⟩ := (key b c db dc ib ic hdb hdc hib hic).mp hbc
    exact (key a c da dc ia ic hda hdc hia hic).mpr
      ⟨h1.trans g1, h2.trans g2, h3.trans g3, h4.trans g4, h5.trans g5⟩

/-- Witness of `equal_equivalence`: the path-parameter binding of input 0, twice, and the
same binding with an empty non-nil field path. -/
theorem equal_equivalence_witness :
    ((nilPathBinding.dep []).isSome = true ∧ (emptyPathBinding.dep []).isSome = true ∧
      nilPathBinding.Input.isSome = true ∧ emptyPathBinding.Input.isSome = true) ∧
    Binding.Equal [] (some nilPathBinding) (some nilPathBinding) = .ok true ∧
    (∃ r, Binding.Equal [] (some nilPathBinding) (some nilPathBinding) = .ok r ∧
      Binding.Equal [] (some nilPathBinding) (some nilPathBinding) = .ok r) ∧
    (Binding.Equal [] (some nilPathBinding) (some nilPathBinding) = .ok true →
      Binding.Equal [] (some nilPathBinding) (some emptyPathBinding) = .ok true →
      Binding.Equal [] (some nilPathBinding) (some emptyPathBinding) = .ok true) :=
  ⟨⟨rfl, rfl, rfl, rfl⟩,
    equal_equivalence [] nilPathBinding nilPathBinding emptyPathBinding rfl rfl rfl rfl rfl rfl⟩

/-- C19: `Equal` is not total.  On two non-nil bindings whose `Dependency` is nil on both
sides (and whose inputs are equal) the presence test of line 63 passes and line 67 reads
`b.Dependency.OriginalValue` through the nil pointer: the call panics instead of
returning true.  With a `Dependency` absent on one side only `Equal` returns false, and
an absent `Input` is handled by the guard of line 85 on either or both sides. -/
theorem equal_panics_on_nil_dependencies :
    Binding.Equal [] (some noDepBinding) (some noDepBinding) =
      .error "invalid memory address or nil pointer dereference" ∧
    (∀ (pool : List Dependency) (b o : Binding), b.dep pool = none → o.dep pool = none →
      Binding.Equal pool (some b) (some o) =
        .error "invalid memory address or nil pointer dereference") ∧
    (∀ (pool : List Dependency) (b o : Binding),
      (b.dep pool).isSome ≠ (o.dep pool).isSome →
      Binding.Equal pool (some b) (some o) = .ok false) ∧
    (∀ (pool : List Dependency) (b o : Binding),
      (b.dep pool).isSome = true → (o.dep pool).isSome = true →
      (b.Input = none ∨ o.Input = none) →
      ∃ r, Binding.Equal pool (some b) (some o) = .ok r) := by
  refine ⟨rfl, ?_, ?_, ?_⟩
  · intro pool b o hb ho
    simp [Binding.Equal, hb, ho]
  · intro pool b o hne
    simp [Binding.Equal, hne]
  · intro pool b o hb ho _
    obtain ⟨d1, hd1⟩ := Option.isSome_iff_exists.mp hb
    obtain ⟨d2, hd2⟩ := Option.isSome_iff_exists.mp ho
    obtain ⟨r, hr, _⟩ := equal_of_deps pool b o d1 d2 hd1 hd2
    exact ⟨r, hr⟩

/-! ## C12: the path-parameter handler -/

/-- C12: for a slot `p >= 0` and a request whose path-parameter store has `L` entries,
the handler built by `paramDependencyHandler(p)` never indexes the store out of range;
it returns `ErrSeeOther` with the empty value if and only if `L <= p`, and otherwise
returns the raw value stored at position `p` with no error. -/
theorem paramDependencyHandler_spec (R : Runtime) (p : Int) (ctx : Ctx) (input : Input)
    (hp : 0 ≤ p) :
    (∃ r, Handler.run R (.param p) ctx input = .ok r) ∧
    (Handler.run R (.param p) ctx input = .ok (.emptyValue, some .ErrSeeOther) ↔
      (ctx.Params.length : Int) ≤ p) ∧
    ((ctx.Params.length : Int) ≤ p →
      paramDependencyHandler p ctx = .ok (.emptyValue, some .ErrSeeOther)) ∧
    (¬ (ctx.Params.length : Int) ≤ p →
      ∃ v, ctx.Params[p.toNat]? = some v ∧
        Handler.run R (.param p) ctx input = .ok (.val v, none)) := by
  have hcase : ¬ (ctx.Params.length : Int) ≤ p →
      ∃ v, ctx.Params[p.toNat]? = some v ∧
        paramDependencyHandler p ctx = .ok (.val v, none) := by
    intro hlt
    have hlt2 : p.toNat < ctx.Params.length := by omega
    refine ⟨ctx.Params[p.toNat], List.getElem?_eq_getElem hlt2, ?_⟩
    have hneg : ¬ p < 0 := by omega
    simp [paramDependencyHandler, hlt, hneg, List.getElem?_eq_getElem hlt2]
  have hrun : Handler.run R (.param p) ctx input = paramDependencyHandler p ctx := rfl
  refine ⟨?_, ?_, ?_, ?_⟩
  · by_cases h : (ctx.Params.length : Int) ≤ p
    · exact ⟨(.emptyValue, some .ErrSeeOther), by rw [hrun]; simp [paramDependencyHandler, h]⟩
    · obtain ⟨v, _, hv⟩ := hcase h
      exact ⟨_, by rw [hrun]; exact hv⟩
  · rw [hrun]
    constructor
    · intro h
      by_contra hlt
      obtain ⟨v, _, hv⟩ := hcase hlt
      rw [hv] at h
      have := Except.ok.inj h
      simp at this
    · intro h
      simp [paramDependencyHandler, h]
  · intro h
    simp [paramDependencyHandler, h]
  · intro h
    obtain ⟨v, hv1, hv2⟩ := hcase h
    exact ⟨v, hv1, by rw [hrun]; exact hv2⟩

/-- Witness of `paramDependencyHandler_spec`: slot 1 of the sample request. -/
theorem paramDependencyHandler_spec_witness :
    (0 : Int) ≤ 1 ∧
    (¬ (sampleCtx.Params.length : Int) ≤ 1 →
      ∃ v, sampleCtx.Params[(1 : Int).toNat]? = some v ∧
        Handler.run sampleRuntime (.param 1) sampleCtx (newInput .string 0 none) =
          .ok (.val v, none)) :=
  ⟨by decide,
    (paramDependencyHandler_spec sampleRuntime 1 sampleCtx (newInput .string 0 none)
      (by decide)).2.2.2⟩

/-! ## C13, C14: the payload handler -/

theorem indirectType_of_not_ptr {t : RType} (h : t.Kind ≠ Kind.Ptr) : indirectType t = t := by
  cases t <;> simp [indirectType, RType.Kind] at h ⊢

theorem indirectType_of_ptr {t : RType} (h : t.Kind = Kind.Ptr) : t = .ptr (indirectType t) := by
  cases t <;> simp [indirectType, RType.Kind] at h ⊢

/-- C13: for every input type `T` and every request, let `dec` be the decoder of the
request that the `switch` selects on the requested content type (`ReadXML`, `ReadYAML`,
`ReadQuery`, `ReadForm`, and `ReadJSON` for any other value).  The payload handler has
`dec` decode into a fresh value of the pointer-stripped type of `T`; when `T` is a pointer
type it returns the pointer to the value `dec` left there, otherwise that value itself,
in both cases with the error of `dec`; so, the decoded value having the type it was
allocated with, the returned value has type `T` in both cases. -/
theorem payload_pointer_or_value (R : Runtime) (ctx : Ctx) (input : Input)
    (dec : RType → Value × Option GoError)
    (hsel :
      (ctx.ContentTypeRequested = R.ContentXMLHeaderValue ∧ dec = ctx.ReadXML) ∨
      (ctx.ContentTypeRequested ≠ R.ContentXMLHeaderValue ∧
        ctx.ContentTypeRequested = R.ContentYAMLHeaderValue ∧ dec = ctx.ReadYAML) ∨
      (ctx.ContentTypeRequested ≠ R.ContentXMLHeaderValue ∧
        ctx.ContentTypeRequested ≠ R.ContentYAMLHeaderValue ∧
        ctx.ContentTypeRequested = R.ContentFormHeaderValue ∧ dec = ctx.ReadQuery) ∨
      (ctx.ContentTypeRequested ≠ R.ContentXMLHeaderValue ∧
        ctx.ContentTypeRequested ≠ R.ContentYAMLHeaderValue ∧
        ctx.ContentTypeRequested ≠ R.ContentFormHeaderValue ∧
        ctx.ContentTypeRequested = R.ContentFormMultipartHeaderValue ∧ dec = ctx.ReadForm) ∨
      (ctx.ContentTypeRequested ≠ R.ContentXMLHeaderValue ∧
        ctx.ContentTypeRequested ≠ R.ContentYAMLHeaderValue ∧
        ctx.ContentTypeRequested ≠ R.ContentFormHeaderValue ∧
        ctx.ContentTypeRequested ≠ R.ContentFormMultipartHeaderValue ∧ dec = ctx.ReadJSON)) :
    (input.Typ.Kind = Kind.Ptr →
      Handler.run R .payload ctx input =
        .ok (.ptrTo (dec (indirectType input.Typ)).1, (dec (indirectType input.Typ)).2)) ∧
    (input.Typ.Kind ≠ Kind.Ptr →
      Handler.run R .payload ctx input =
        .ok (.val (dec (indirectType input.Typ)).1, (dec (indirectType input.Typ)).2)) ∧
    ((dec (indirectType input.Typ)).1.typeOf = indirectType input.Typ →
      ∃ v err, Handler.run R .payload ctx input = .ok (v, err) ∧ v.typeOf = some input.Typ) := by
  have hdec : decodeBody R ctx (indirectType input.Typ) = dec (indirectType input.Typ) := by
    simp only [decodeBody, beq_iff_eq]
    rcases hsel with ⟨h1, hd⟩ | ⟨h1, h2, hd⟩ | ⟨h1, h2, h3, hd⟩ | ⟨h1, h2, h3, h4, hd⟩ |
      ⟨h1, h2, h3, h4, hd⟩
    · rw [if_pos h1, hd]
    · rw [if_neg h1, if_pos h2, hd]
    · rw [if_neg h1, if_neg h2, if_pos h3, hd]
    · rw [if_neg h1, if_neg h2, if_neg h3, if_pos h4, hd]
    · rw [if_neg h1, if_neg h2, if_neg h3, if_neg h4, hd]
  have hptr : input.Typ.Kind = Kind.Ptr →
      Handler.run R .payload ctx input =
        .ok (.ptrTo (dec (indirectType input.Typ)).1, (dec (indirectType input.Typ)).2) := by
    intro h
    simp [Handler.run, payloadHandle, h, hdec]
  have hval : input.Typ.Kind ≠ Kind.Ptr →
      Handler.run R .payload ctx input =
        .ok (.val (dec (indirectType input.Typ)).1, (dec (indirectType input.Typ)).2) := by
    intro h
    simp [Handler.run, payloadHandle, h, hdec]
  refine ⟨hptr, hval, ?_⟩
  intro hty
  by_cases h : input.Typ.Kind = Kind.Ptr
  · refine ⟨_, _, hptr h, ?_⟩
    simp only [RValue.typeOf, hty]
    rw [← indirectType_of_ptr h]
  · refine ⟨_, _, hval h, ?_⟩
    simp only [RValue.typeOf, hty]
    rw [indirectType_of_not_ptr h]

/-- Witness of `payload_pointer_or_value`: the sample request (no content type, so JSON)
and a `*UserPayload` input: the handler returns the pointer to the object the JSON
decoder produced, with no error. -/
theorem payload_pointer_or_value_witness :
    (sampleCtx.ContentTypeRequested ≠ sampleRuntime.ContentXMLHeaderValue ∧
      sampleCtx.ContentTypeRequested ≠ sampleRuntime.ContentYAMLHeaderValue ∧
      sampleCtx.ContentTypeRequested ≠ sampleRuntime.ContentFormHeaderValue ∧
      sampleCtx.ContentTypeRequested ≠ sampleRuntime.ContentFormMultipartHeaderValue) ∧
    (newInput (.ptr (.struct "UserPayload")) 0 none).Typ.Kind = Kind.Ptr ∧
    Handler.run sampleRuntime .payload sampleCtx
        (newInput (.ptr (.struct "UserPayload")) 0 none) =
      .ok (.ptrTo (.obj (.struct "UserPayload") "body"), none) :=
  ⟨⟨by decide, by decide, by decide, by decide⟩, by decide,
    (payload_pointer_or_value sampleRuntime sampleCtx
      (newInput (.ptr (.struct "UserPayload")) 0 none) sampleCtx.ReadJSON
      (Or.inr (Or.inr (Or.inr (Or.inr
        ⟨by decide, by decide, by decide, by decide, rfl⟩))))).1 (by decide)⟩

/-- C14: the payload handler always returns, and the error it returns is exactly the
error of the one decoder its `switch` selects on the requested content type: `ReadXML`
for the XML value, `ReadYAML` for the YAML value, `ReadQuery` for the form value,
`ReadForm` for the multipart-form value and `ReadJSON` for every other value; so the
error is nil exactly when the selected decoder succeeded. -/
theorem payload_error_is_decoder_error (R : Runtime) (ctx : Ctx) (input : Input) :
    ∃ v err, Handler.run R .payload ctx input = .ok (v, err) ∧
      err = (decodeBody R ctx (indirectType input.Typ)).2 ∧
      (err = none ↔ (decodeBody R ctx (indirectType input.Typ)).2 = none) ∧
      (ctx.ContentTypeRequested = R.ContentXMLHeaderValue →
        err = (ctx.ReadXML (indirectType input.Typ)).2) ∧
      (ctx.ContentTypeRequested ≠ R.ContentXMLHeaderValue →
        ctx.ContentTypeRequested = R.ContentYAMLHeaderValue →
        err = (ctx.ReadYAML (indirectType input.Typ)).2) ∧
      (ctx.ContentTypeRequested ≠ R.ContentXMLHeaderValue →
        ctx.ContentTypeRequested ≠ R.ContentYAMLHeaderValue →
        ctx.ContentTypeRequested = R.ContentFormHeaderValue →
        err = (ctx.ReadQuery (indirectType input.Typ)).2) ∧
      (ctx.ContentTypeRequested ≠ R.ContentXMLHeaderValue →
        ctx.ContentTypeRequested ≠ R.ContentYAMLHeaderValue →
        ctx.ContentTypeRequested ≠ R.ContentFormHeaderValue →
        ctx.ContentTypeRequested = R.ContentFormMultipartHeaderValue →
        err = (ctx.ReadForm (indirectType input.Typ)).2) ∧
      (ctx.ContentTypeRequested ≠ R.ContentXMLHeaderValue →
        ctx.ContentTypeRequested ≠ R.ContentYAMLHeaderValue →
        ctx.ContentTypeRequested ≠ R.ContentFormHeaderValue →
        ctx.ContentTypeRequested ≠ R.ContentFormMultipartHeaderValue →
        err = (ctx.ReadJSON (indirectType input.Typ)).2) := by
  refine ⟨(payloadHandle R ctx input).1, (payloadHandle R ctx input).2, rfl, rfl, Iff.rfl,
    ?_, ?_, ?_, ?_, ?_⟩
  · intro h1
    simp only [payloadHandle, decodeBody, beq_iff_eq]
    rw [if_pos h1]
  · intro h1 h2
    simp only [payloadHandle, decodeBody, beq_iff_eq]
    rw [if_neg h1, if_pos h2]
  · intro h1 h2 h3
    simp only [payloadHandle, decodeBody, beq_iff_eq]
    rw [if_neg h1, if_neg h2, if_pos h3]
  · intro h1 h2 h3 h4
    simp only [payloadHandle, decodeBody, beq_iff_eq]
    rw [if_neg h1, if_neg h2, if_neg h3, if_pos h4]
  · intro h1 h2 h3 h4
    simp only [payloadHandle, decodeBody, beq_iff_eq]
    rw [if_neg h1, if_neg h2, if_neg h3, if_neg h4]

/-! ## C15: the result follows the order of the inputs -/

theorem inputIndices_append (xs ys : List Binding) :
    inputIndices (xs ++ ys) = inputIndices xs ++ inputIndices ys := by
  simp [inputIndices, List.filterMap_append]

theorem mem_inputIndices_emittedAt {E : Env} {inputs : List RType} {deps : List Dependency}
    {p : Int} {i : Nat} {x : Int} (hx : x ∈ inputIndices (emittedAt E inputs deps p i)) :
    x = (i : Int) := by
  simp only [inputIndices, List.mem_filterMap] at hx
  obtain ⟨b, hb, hbx⟩ := hx
  obtain ⟨_, hin⟩ := input_of_mem_emittedAt hb
  rw [hin] at hbx
  simp only [Option.map_some', Option.some.injEq, newInput] at hbx
  exact hbx.symm

theorem pairwise_of_length_le_one {l : List Int} (h : l.length ≤ 1) : l.Pairwise (· < ·) := by
  match l, h with
  | [], _ => exact List.Pairwise.nil
  | [a], _ => exact List.pairwise_singleton _ _
  | _ :: _ :: _, h => simp at h

theorem inputIndices_length_eq :
    ∀ bs : List Binding, (∀ b ∈ bs, b.Input.isSome = true) →
      (inputIndices bs).length = bs.length := by
  intro bs
  induction bs with
  | nil => intro _; rfl
  | cons b rest ih =>
    intro h
    have hb := h b (List.mem_cons_self _ _)
    obtain ⟨inp, hinp⟩ := Option.isSome_iff_exists.mp hb
    have hrest := ih (fun x hx => h x (List.mem_cons_of_mem _ hx))
    unfold inputIndices at hrest ⊢
    simp [List.filterMap_cons, hinp, hrest]

theorem inputIndices_length_le (bs : List Binding) : (inputIndices bs).length ≤ bs.length := by
  unfold inputIndices
  exact List.length_filterMap_le _ _

/-- After `k` inputs the indices of the bindings are strictly increasing and below `k`. -/
theorem increasing_stateAt (E : Env) (inputs : List RType) (deps : List Dependency) (p : Int) :
    ∀ k, k ≤ inputs.length →
      (inputIndices (stateAt E inputs deps p k).bindings).Pairwise (· < ·) ∧
      ∀ x ∈ inputIndices (stateAt E inputs deps p k).bindings, x < (k : Int) := by
  intro k
  induction k with
  | zero =>
    intro _
    simp [stateAt_zero, initState, inputIndices]
  | succ k ih =>
    intro hk
    obtain ⟨ih1, ih2⟩ := ih (Nat.le_of_lt hk)
    rw [bindings_stateAt_succ E inputs deps p hk, inputIndices_append]
    have hlen : (inputIndices (emittedAt E inputs deps p k)).length ≤ 1 :=
      Nat.le_trans (inputIndices_length_le _) (emittedAt_length_le E inputs deps p k)
    refine ⟨?_, ?_⟩
    · rw [List.pairwise_append]
      refine ⟨ih1, pairwise_of_length_le_one hlen, ?_⟩
      intro a ha b hb
      rw [mem_inputIndices_emittedAt hb]
      exact ih2 a ha
    · intro x hx
      rcases List.mem_append.mp hx with h | h
      · have := ih2 x h
        push_cast
        omega
      · rw [mem_inputIndices_emittedAt h]
        push_cast
        omega

/-- The bindings after `k + j` inputs extend those after `k` inputs by at most `j`. -/
theorem bindings_stateAt_add (E : Env) (inputs : List RType) (deps : List Dependency) (p : Int)
    (k : Nat) :
    ∀ j, k + j ≤ inputs.length →
      ∃ t, (stateAt E inputs deps p (k + j)).bindings = (stateAt E inputs deps p k).bindings ++ t ∧
        t.length ≤ j := by
  intro j
  induction j with
  | zero => intro _; exact ⟨[], by simp, by simp⟩
  | succ j ih =>
    intro hj
    obtain ⟨t, ht, hlen⟩ := ih (by omega)
    have hlt : k + j < inputs.length := by omega
    refine ⟨t ++ emittedAt E inputs deps p (k + j), ?_, ?_⟩
    · have : k + (j + 1) = (k + j) + 1 := by omega
      rw [this, bindings_stateAt_succ E inputs deps p hlt, ht, List.append_assoc]
    · have := emittedAt_length_le E inputs deps p (k + j)
      simp only [List.length_append]
      omega

/-- C15: the bindings returned by `getBindingsFor` are in input order with at most one
binding per input: every binding carries an input index `i` below `len(inputs)`, the type
`inputs[i]` and no field path; the indices are strictly increasing along the result; and
when there are as many bindings as inputs (every input was resolved), the `k`-th binding
is the binding of the `k`-th input. -/
theorem bindings_in_input_order (E : Env) (inputs : List RType) (deps : List Dependency)
    (p : Int) :
    (∀ b ∈ (getBindingsFor E inputs deps p).1, ∃ i, ∃ hi : i < inputs.length,
      b.Input = some { Index := (i : Int), StructFieldIndex := none, Typ := inputs[i] }) ∧
    (inputIndices (getBindingsFor E inputs deps p).1).Pairwise (· < ·) ∧
    (inputIndices (getBindingsFor E inputs deps p).1).length =
      (getBindingsFor E inputs deps p).1.length ∧
    (∀ i, i < inputs.length →
      (bindingsOfInput (getBindingsFor E inputs deps p).1 i).length ≤ 1) ∧
    ((getBindingsFor E inputs deps p).1.length = inputs.length →
      ∀ k (hlt : k < inputs.length),
        ∃ b, (getBindingsFor E inputs deps p).1[k]? = some b ∧
          b.Input = some { Index := (k : Int), StructFieldIndex := none, Typ := inputs[k] }) := by
  have hmem : ∀ b ∈ (getBindingsFor E inputs deps p).1, ∃ i, ∃ hi : i < inputs.length,
      b.Input = some { Index := (i : Int), StructFieldIndex := none, Typ := inputs[i] } := by
    intro b hb
    obtain ⟨i, hi, hbi⟩ := mem_getBindingsFor.mp hb
    obtain ⟨_, hin⟩ := input_of_mem_emittedAt hbi
    exact ⟨i, hi, hin⟩
  refine ⟨hmem, ?_, ?_, ?_, ?_⟩
  · rw [getBindingsFor_eq]
    exact (increasing_stateAt E inputs deps p inputs.length (Nat.le_refl _)).1
  · apply inputIndices_length_eq
    intro b hb
    obtain ⟨i, hi, hin⟩ := hmem b hb
    simp [hin]
  · intro i hi
    rw [bindingsOfInput_getBindingsFor E inputs deps p hi]
    exact emittedAt_length_le E inputs deps p i
  · intro hlen k hlt
    have hfull : (stateAt E inputs deps p inputs.length).bindings.length = inputs.length := by
      rw [getBindingsFor_eq] at hlen
      exact hlen
    have hk1 : (stateAt E inputs deps p k).bindings.length = k := by
      have h1 := length_bindings_stateAt E inputs deps p k (Nat.le_of_lt hlt)
      obtain ⟨t, ht, htl⟩ := bindings_stateAt_add E inputs deps p k (inputs.length - k) (by omega)
      have e : k + (inputs.length - k) = inputs.length := by omega
      rw [e] at ht
      have := congrArg List.length ht
      rw [hfull, List.length_append] at this
      omega
    have hk2 : (stateAt E inputs deps p (k + 1)).bindings.length = k + 1 := by
      have h1 := length_bindings_stateAt E inputs deps p (k + 1) hlt
      obtain ⟨t, ht, htl⟩ :=
        bindings_stateAt_add E inputs deps p (k + 1) (inputs.length - (k + 1)) (by omega)
      have e : k + 1 + (inputs.length - (k + 1)) = inputs.length := by omega
      rw [e] at ht
      have := congrArg List.length ht
      rw [hfull, List.length_append] at this
      omega
    obtain ⟨t, ht, _⟩ :=
      bindings_stateAt_add E inputs deps p (k + 1) (inputs.length - (k + 1)) (by omega)
    have e : k + 1 + (inputs.length - (k + 1)) = inputs.length := by omega
    rw [e, bindings_stateAt_succ E inputs deps p hlt] at ht
    have hem : (emittedAt E inputs deps p k).length = 1 := by
      have := congrArg List.length (bindings_stateAt_succ E inputs deps p hlt)
      rw [hk2, List.length_append, hk1] at this
      omega
    obtain ⟨b, hb⟩ := List.length_eq_one.mp hem
    refine ⟨b, ?_, ?_⟩
    · rw [getBindingsFor_eq]
      simp only
      rw [ht, hb]
      rw [List.append_assoc, List.getElem?_append_right (by omega)]
      simp [hk1]
    · have hbm : b ∈ emittedAt E inputs deps p k := by rw [hb]; simp
      obtain ⟨_, hin⟩ := input_of_mem_emittedAt hbm
      exact hin

/-! ## C16: merge and back-fill in the struct binder -/

theorem backFill_append {fields : List StructField} :
    ∀ (xs ys xs2 ys2 : List Binding), backFill fields xs = .ok xs2 →
      backFill fields ys = .ok ys2 → backFill fields (xs ++ ys) = .ok (xs2 ++ ys2) := by
  intro xs
  induction xs with
  | nil =>
    intro ys xs2 ys2 hx hy
    simp only [backFill] at hx
    cases hx
    simpa using hy
  | cons x rest ih =>
    intro ys xs2 ys2 hx hy
    simp only [backFill] at hx
    cases h1 : backFillOne fields x with
    | error e => rw [h1] at hx; simp at hx
    | ok x2 =>
      rw [h1] at hx
      cases h2 : backFill fields rest with
      | error e => rw [h2] at hx; simp at hx
      | ok rest2 =>
        rw [h2] at hx
        simp only [Except.ok.injEq] at hx
        subst hx
        have := ih ys rest2 ys2 h2 hy
        simp [backFill, h1, this]

theorem backFill_prePopulated (fields : List StructField) (v : StructValue) :
    ∀ l : List StructField, (∀ f ∈ l, f.Index ≠ []) →
      backFill fields (l.map (prePopulated v)) = .ok (l.map (prePopulated v)) := by
  intro l
  induction l with
  | nil => intro _; rfl
  | cons f rest ih =>
    intro h
    have hf : f.Index ≠ [] := h f (List.mem_cons_self _ _)
    have hrest := ih (fun g hg => h g (List.mem_cons_of_mem _ hg))
    have hlen : f.Index.length ≠ 0 := by
      intro h0
      exact hf (List.length_eq_zero.mp h0)
    simp [backFill, backFillOne, prePopulated, sliceLen, hlen, hrest]

theorem backFill_engine (fields : List StructField) :
    ∀ bs : List Binding,
      (∀ b ∈ bs, ∃ i, ∃ hi : i < fields.length,
        b.Input = some { Index := (i : Int), StructFieldIndex := none, Typ := fields[i].Typ }) →
      ∃ filled, backFill fields bs = .ok filled ∧ List.Forall₂ (backFilled fields) bs filled := by
  intro bs
  induction bs with
  | nil => intro _; exact ⟨[], rfl, List.Forall₂.nil⟩
  | cons b rest ih =>
    intro h
    obtain ⟨i, hi, hin⟩ := h b (List.mem_cons_self _ _)
    obtain ⟨filled, hf, hall⟩ := ih (fun x hx => h x (List.mem_cons_of_mem _ hx))
    have hneg : ¬ ((i : Int) < 0) := by omega
    refine ⟨{ Dependency := b.Dependency
              Input := some { Index := (i : Int), StructFieldIndex := some fields[i].Index,
                              Typ := fields[i].Typ } } :: filled, ?_,
      List.Forall₂.cons ⟨i, hi, hin, rfl⟩ hall⟩
    simp [backFill, backFillOne, hin, sliceLen, hneg, List.getElem?_eq_getElem hi, hf]

theorem exists_of_forall₂_right {R : Binding → Binding → Prop} :
    ∀ {xs ys : List Binding}, List.Forall₂ R xs ys → ∀ y ∈ ys, ∃ x, x ∈ xs ∧ R x y := by
  intro xs ys h
  induction h with
  | nil => intro y hy; simp at hy
  | cons hxy _ ih =>
    intro y hy
    rcases List.mem_cons.mp hy with h1 | h1
    · subst h1
      exact ⟨_, List.mem_cons_self _ _, hxy⟩
    · obtain ⟨x, hx, hr⟩ := ih y h1
      exact ⟨x, List.mem_cons_of_mem _ hx, hr⟩

/-- C16: when `getBindingsForStruct` does not short-circuit (the non-zero fields, with
non-empty index paths, are fewer than the engine bindings), it returns, without any
out-of-range lookup, the pre-populated bindings followed by the `getBindingsFor` bindings
in their order, back-filled: each pre-populated binding keeps its own field's index path,
and each engine binding gets as `StructFieldIndex` the index path of the discovered
(possibly sorter-reordered) field at position `Input.Index`, whose type is the binding's
`Input.Type`; and, the discovered fields having non-empty index paths, every binding of
the result has a non-empty `StructFieldIndex`. -/
theorem struct_merge_backfill (E : Env) (v : StructValue) (deps : List Dependency) (p : Int)
    (sorter : Option (RType → RType → Bool))
    (hstruct : (indirectType v.typ).Kind = Kind.Struct)
    (hidx : ∀ f ∈ v.nonZero, f.Index ≠ [])
    (hlt : v.nonZero.length <
      (getBindingsFor E ((sortedFields E v sorter).map (fun f => f.Typ)) deps p).1.length) :
    ∃ filled,
      getBindingsForStruct E v deps p sorter =
        .ok (v.nonZero.map (prePopulated v) ++ filled,
          (getBindingsFor E ((sortedFields E v sorter).map (fun f => f.Typ)) deps p).2) ∧
      List.Forall₂ (backFilled (sortedFields E v sorter))
        (getBindingsFor E ((sortedFields E v sorter).map (fun f => f.Typ)) deps p).1 filled ∧
      (∀ f ∈ v.nonZero, ∃ inp, (prePopulated v f).Input = some inp ∧
        inp.StructFieldIndex = some f.Index) ∧
      ((∀ f ∈ sortedFields E v sorter, f.Index ≠ []) →
        ∀ b ∈ v.nonZero.map (prePopulated v) ++ filled,
          ∃ inp, b.Input = some inp ∧ sliceLen inp.StructFieldIndex ≠ 0) := by
  have hengine : ∀ b ∈
      (getBindingsFor E ((sortedFields E v sorter).map (fun f => f.Typ)) deps p).1,
      ∃ i, ∃ hi : i < (sortedFields E v sorter).length,
        b.Input = some { Index := (i : Int), StructFieldIndex := none,
                         Typ := (sortedFields E v sorter)[i].Typ } := by
    intro b hb
    obtain ⟨i, hi, hbi⟩ := mem_getBindingsFor.mp hb
    obtain ⟨_, hin⟩ := input_of_mem_emittedAt hbi
    have hi2 : i < (sortedFields E v sorter).length := by simpa using hi
    refine ⟨i, hi2, ?_⟩
    rw [hin]
    simp [newInput]
  obtain ⟨filled, hfill, hall⟩ := backFill_engine (sortedFields E v sorter) _ hengine
  have hpre := backFill_prePopulated (sortedFields E v sorter) v v.nonZero hidx
  have hmerge := backFill_append _ _ _ _ hpre hfill
  refine ⟨filled, ?_, hall, ?_, ?_⟩
  · unfold getBindingsForStruct
    simp only [hstruct, bne_self_eq_false, Bool.false_eq_true, if_false,
      nonZeroBindings_ok v v.nonZero hidx]
    have hnot : ¬ (v.nonZero.length ≥
        (getBindingsFor E ((sortedFields E v sorter).map (fun f => f.Typ)) deps p).1.length) := by
      omega
    simp only [hnot, if_false, hmerge]
  · intro f _
    exact ⟨_, rfl, rfl⟩
  · intro hfidx b hb
    rcases List.mem_append.mp hb with h | h
    · obtain ⟨f, hf, hfb⟩ := List.mem_map.mp h
      refine ⟨_, by rw [← hfb]; rfl, ?_⟩
      simp only [sliceLen]
      intro h0
      exact hidx f hf (List.length_eq_zero.mp h0)
    · obtain ⟨b0, _, i, hi, _, hfb⟩ := exists_of_forall₂_right hall b h
      refine ⟨_, by rw [hfb], ?_⟩
      simp only [sliceLen]
      intro h0
      exact hfidx _ (List.getElem_mem hi) (List.length_eq_zero.mp h0)

/-- Witness of `struct_merge_backfill`: the struct `{Name: "", Age: 0}` with an empty pool;
both fields are resolved by the engine as path parameters. -/
theorem struct_merge_backfill_witness :
    ((indirectType nameAgeZero.typ).Kind = Kind.Struct ∧
      nameAgeZero.nonZero.length <
        (getBindingsFor sampleEnv ((sortedFields sampleEnv nameAgeZero none).map
          (fun f => f.Typ)) [] 0).1.length) ∧
    ∃ filled,
      getBindingsForStruct sampleEnv nameAgeZero [] 0 none =
        .ok (nameAgeZero.nonZero.map (prePopulated nameAgeZero) ++ filled,
          (getBindingsFor sampleEnv ((sortedFields sampleEnv nameAgeZero none).map
            (fun f => f.Typ)) [] 0).2) ∧
      List.Forall₂ (backFilled (sortedFields sampleEnv nameAgeZero none))
        (getBindingsFor sampleEnv ((sortedFields sampleEnv nameAgeZero none).map
          (fun f => f.Typ)) [] 0).1 filled ∧
      (∀ f ∈ nameAgeZero.nonZero, ∃ inp, (prePopulated nameAgeZero f).Input = some inp ∧
        inp.StructFieldIndex = some f.Index) ∧
      ((∀ f ∈ sortedFields sampleEnv nameAgeZero none, f.Index ≠ []) →
        ∀ b ∈ nameAgeZero.nonZero.map (prePopulated nameAgeZero) ++ filled,
          ∃ inp, b.Input = some inp ∧ sliceLen inp.StructFieldIndex ≠ 0) :=
  ⟨⟨by decide, by decide⟩,
    struct_merge_backfill sampleEnv nameAgeZero [] 0 none (by decide) (by decide) (by decide)⟩

/-! ## C17: the handler of a wrapped dependency -/

theorem run_paramOr_hit (R : Runtime) (q : Int) (prev : Handler) (ctx : Ctx) (input : Input)
    (v : Value) (h : paramDependencyHandler q ctx = .ok (.val v, none)) :
    Handler.run R (.paramOr q prev) ctx input = .ok (.val v, none) := by
  simp [Handler.run, h]

theorem run_paramOr_miss (R : Runtime) (q : Int) (prev : Handler) (ctx : Ctx) (input : Input)
    (h : (ctx.Params.length : Int) ≤ q) :
    Handler.run R (.paramOr q prev) ctx input = Handler.run R prev ctx input := by
  simp [Handler.run, paramDependencyHandler, h]

/-- C17: `f(a string, b string)` with one explicit `string` dependency and
`paramStartIndex = 0`.  Both inputs are matched to the same pool entry, which is wrapped
once per match: first at slot 0 (input 0), then, around that, at slot 1 (input 1).  Both
bindings point to that one entry, so the `Handle` the binding of input 0 holds when
`getBindingsFor` returns first attempts slot 1: on a request with path parameters
`a`, `b` it returns `b`, not the value `a` stored at input 0's own slot 0.  (A wrapped
handler tries its own slot first and falls back on the handler it wrapped only when the
store is too short.) -/
theorem shared_dependency_reads_last_slot :
    (getBindingsFor sampleEnv [.string, .string] [explicitDep 0 .string] 0).1 =
      [{ Dependency := some (.pool 0), Input := some (newInput .string 0 none) },
       { Dependency := some (.pool 0), Input := some (newInput .string 1 none) }] ∧
    (stateAt sampleEnv [.string, .string] [explicitDep 0 .string] 0 1).deps =
      [{ Handle := .paramOr 0 (.user 0), OriginalValue := none, DestType := some .string,
         Explicit := true, Static := false }] ∧
    (getBindingsFor sampleEnv [.string, .string] [explicitDep 0 .string] 0).2 =
      [{ Handle := .paramOr 1 (.paramOr 0 (.user 0)), OriginalValue := none,
         DestType := some .string, Explicit := true, Static := false }] ∧
    sampleCtx.Params = [.str "a", .str "b"] ∧
    Handler.run sampleRuntime (.paramOr 1 (.paramOr 0 (.user 0))) sampleCtx
        (newInput .string 0 none) = .ok (.val (.str "b"), none) ∧
    Handler.run sampleRuntime (.paramOr 0 (.user 0)) sampleCtx (newInput .string 0 none) =
      .ok (.val (.str "a"), none) ∧
    (∀ (R : Runtime) (q : Int) (prev : Handler) (ctx : Ctx) (input : Input) (v : Value),
      paramDependencyHandler q ctx = .ok (.val v, none) →
      Handler.run R (.paramOr q prev) ctx input = .ok (.val v, none)) ∧
    (∀ (R : Runtime) (q : Int) (prev : Handler) (ctx : Ctx) (input : Input),
      (ctx.Params.length : Int) ≤ q →
      Handler.run R (.paramOr q prev) ctx input = Handler.run R prev ctx input) := by
  refine ⟨by decide, by decide, by decide, rfl, by rfl, by rfl, ?_, ?_⟩
  · intro R q prev ctx input v h
    exact run_paramOr_hit R q prev ctx input v h
  · intro R q prev ctx input h
    exact run_paramOr_miss R q prev ctx input h

/-! ## C20: the pool after a short-circuit of the struct binder -/

theorem getBindingsForStruct_short (E : Env) (v : StructValue) (deps : List Dependency)
    (p : Int) (sorter : Option (RType → RType → Bool))
    (hstruct : (indirectType v.typ).Kind = Kind.Struct)
    (hidx : ∀ f ∈ v.nonZero, f.Index ≠ [])
    (hge : (getBindingsFor E ((sortedFields E v sorter).map (fun f => f.Typ)) deps p).1.length ≤
      v.nonZero.length) :
    getBindingsForStruct E v deps p sorter =
      .ok (v.nonZero.map (prePopulated v),
        (getBindingsFor E ((sortedFields E v sorter).map (fun f => f.Typ)) deps p).2) := by
  unfold getBindingsForStruct
  simp only [hstruct, bne_self_eq_false, Bool.false_eq_true, if_false,
    nonZeroBindings_ok v v.nonZero hidx]
  simp [hge]

/-- C20 (counterexample): the struct `{Name: "x", Age: 0}` with a pool holding one static
`int` dependency and `paramStartIndex = 0`.  The call short-circuits and returns only the
pre-populated binding of `Name`, but the discarded engine run has matched `Age` to the
pool entry and wrapped it: its `Handle`, `Static` and `OriginalValue` all differ from
what they were before the call. -/
theorem short_circuit_leaves_pool_wrapped :
    getBindingsForStruct sampleEnv nameAge [NewDependency (.int 5)] 0 none =
      .ok ([{ Dependency := some (.fresh (NewDependency (.str "x")))
              Input := some { Index := 0, StructFieldIndex := some [0], Typ := .string } }],
        [{ Handle := .paramOr 0 (.static (.int 5)), OriginalValue := none,
           DestType := some .int, Explicit := false, Static := false }]) ∧
    NewDependency (.int 5) =
      { Handle := .static (.int 5), OriginalValue := some (.int 5), DestType := some .int,
        Explicit := false, Static := true } ∧
    nameAge.nonZero.length ≥
      (getBindingsFor sampleEnv ((sortedFields sampleEnv nameAge none).map (fun f => f.Typ))
        [NewDependency (.int 5)] 0).1.length ∧
    ¬ (∀ (j : Nat) (d d2 : Dependency), [NewDependency (.int 5)][j]? = some d →
        [({ Handle := .paramOr 0 (.static (.int 5)), OriginalValue := none,
            DestType := some .int, Explicit := false, Static := false } : Dependency)][j]? =
          some d2 →
        d2.Handle = d.Handle ∧ d2.Static = d.Static ∧ d2.OriginalValue = d.OriginalValue) := by
  refine ⟨by rfl, rfl, by decide, ?_⟩
  intro h
  have h2 := h 0 _ _ rfl rfl
  exact absurd h2.2.1 (by decide)

/-- C20 (as amended): when `getBindingsForStruct` short-circuits and returns only the
pre-populated bindings, it leaves the pool as the discarded `getBindingsFor` run left
it: every pool entry that the discarded run did not match to a path-parameter-capable
field is unchanged (same `Handle`, `Static`, `OriginalValue`), every entry it did match
to such a field is non-static with its `OriginalValue` cleared, and with
`paramStartIndex = -1` the whole pool is unchanged. -/
theorem short_circuit_pool_frame (E : Env) (v : StructValue) (deps : List Dependency)
    (p : Int) (sorter : Option (RType → RType → Bool))
    (hstruct : (indirectType v.typ).Kind = Kind.Struct)
    (hidx : ∀ f ∈ v.nonZero, f.Index ≠ [])
    (hge : (getBindingsFor E ((sortedFields E v sorter).map (fun f => f.Typ)) deps p).1.length ≤
      v.nonZero.length) :
    ∃ pool2, getBindingsForStruct E v deps p sorter = .ok (v.nonZero.map (prePopulated v), pool2) ∧
      pool2 = (getBindingsFor E ((sortedFields E v sorter).map (fun f => f.Typ)) deps p).2 ∧
      pool2.length = deps.length ∧
      (∀ j, ¬ matchedToPathInput E p
          (getBindingsFor E ((sortedFields E v sorter).map (fun f => f.Typ)) deps p).1 j →
        pool2[j]? = deps[j]?) ∧
      (∀ j, matchedToPathInput E p
          (getBindingsFor E ((sortedFields E v sorter).map (fun f => f.Typ)) deps p).1 j →
        ∃ d, pool2[j]? = some d ∧ d.Static = false ∧ d.OriginalValue = none) ∧
      (p = -1 → pool2 = deps) := by
  refine ⟨_, getBindingsForStruct_short E v deps p sorter hstruct hidx hge, rfl, ?_, ?_, ?_, ?_⟩
  · rw [getBindingsFor_eq]
    exact length_deps_stateAt (Nat.le_refl _)
  · intro j hj
    rw [getBindingsFor_eq] at hj ⊢
    exact (pool_stateAt E _ deps p _ (Nat.le_refl _) j).2 hj
  · intro j hj
    rw [getBindingsFor_eq] at hj ⊢
    exact (pool_stateAt E _ deps p _ (Nat.le_refl _) j).1 hj
  · intro hp
    subst hp
    rw [getBindingsFor_eq]
    exact deps_stateAt_neg_one E _ deps _ (Nat.le_refl _)

/-- Witness of `short_circuit_pool_frame`: the struct `{Name: "x", Age: 0}` over a pool with
an implicit `Logger` provider, which the discarded run leaves alone. -/
theorem short_circuit_pool_frame_witness :
    ((indirectType nameAge.typ).Kind = Kind.Struct ∧
      (getBindingsFor sampleEnv ((sortedFields sampleEnv nameAge none).map (fun f => f.Typ))
        [implicitDep 0 (.iface "Logger")] 0).1.length ≤ nameAge.nonZero.length) ∧
    ∃ pool2, getBindingsForStruct sampleEnv nameAge [implicitDep 0 (.iface "Logger")] 0 none =
        .ok (nameAge.nonZero.map (prePopulated nameAge), pool2) ∧
      pool2 = (getBindingsFor sampleEnv ((sortedFields sampleEnv nameAge none).map
        (fun f => f.Typ)) [implicitDep 0 (.iface "Logger")] 0).2 ∧
      pool2.length = [implicitDep 0 (.iface "Logger")].length ∧
      (∀ j, ¬ matchedToPathInput sampleEnv 0
          (getBindingsFor sampleEnv ((sortedFields sampleEnv nameAge none).map
            (fun f => f.Typ)) [implicitDep 0 (.iface "Logger")] 0).1 j →
        pool2[j]? = [implicitDep 0 (.iface "Logger")][j]?) ∧
      (∀ j, matchedToPathInput sampleEnv 0
          (getBindingsFor sampleEnv ((sortedFields sampleEnv nameAge none).map
            (fun f => f.Typ)) [implicitDep 0 (.iface "Logger")] 0).1 j →
        ∃ d, pool2[j]? = some d ∧ d.Static = false ∧ d.OriginalValue = none) ∧
      ((0 : Int) = -1 → pool2 = [implicitDep 0 (.iface "Logger")]) :=
  ⟨⟨by decide, by decide⟩,
    short_circuit_pool_frame sampleEnv nameAge [implicitDep 0 (.iface "Logger")] 0 none
      (by decide) (by decide) (by decide)⟩

end Hero
